import Mathlib

/-!
# Verification of the recoll compound-document filters

A shallow embedding, in Lean 4, of the container/compound-document filters of
the recoll repository (`src/filters/rclchm.py`, `rclinfo.py`, `rclics.py`,
`rclkar.py`, `rclzip.py`), together with theorems settling the specification
claims about them.

Conventions used throughout:

* Python `bytes` values are embedded as `List Nat` (one entry per byte).
* Python `str` values are embedded as Lean `String`, except in `rclinfo.py`
  where node names mix `bytes` and `str`; there the sum type `PyV` keeps the
  two apart, as CPython does.
* Python values that may be either `str` or `bytes` are embedded as `PyVal`.
* Code raising an exception is embedded with `Except`/`Option`.
* External collaborators (the chm library, `HTMLParser`, codec tables) are
  embedded as record fields holding opaque functions, mirroring the queryable
  surface the filters actually use.
-/

namespace Recoll

/-- Fuelled decimal rendering; fuel `n + 1` always suffices since the
quotient shrinks every step. -/
def decDigitsF : Nat → Nat → List Nat
  | 0, _ => []
  | fuel + 1, n =>
    if n < 10 then [48 + n] else decDigitsF fuel (n / 10) ++ [48 + n % 10]

/-- Decimal digits (ASCII bytes) of a natural number, i.e. Python `str(n)`
for a non-negative `n`, taken as a byte string. -/
def natToDecBytes (n : Nat) : List Nat := decDigitsF (n + 1) n

/-- ASCII lower-casing of one byte, used to embed the `re.IGNORECASE` flag. -/
def lowerByte (b : Nat) : Nat :=
  if 65 ≤ b ∧ b ≤ 90 then b + 32 else b

/-- Case-insensitive equality of two bytes (ASCII). -/
def ciEq (a b : Nat) : Bool := lowerByte a = lowerByte b

/-- Case-insensitive test that `pat` is an initial segment of `l`. -/
def ciStarts : List Nat → List Nat → Bool
  | [], _ => true
  | _ :: _, [] => false
  | p :: ps, x :: xs => ciEq p x && ciStarts ps xs

/-- Python `bytes.rstrip(cs)`: drop trailing bytes belonging to `cs`. -/
def pyRstrip (cs : List Nat) (l : List Nat) : List Nat :=
  (l.reverse.dropWhile (fun b => cs.contains b)).reverse

/-- Python `bytes.lstrip(cs)`: drop leading bytes belonging to `cs`. -/
def pyLstrip (cs : List Nat) (l : List Nat) : List Nat :=
  l.dropWhile (fun b => cs.contains b)

/-- Python `bytes.strip(cs)`. -/
def pyStrip (cs : List Nat) (l : List Nat) : List Nat :=
  pyRstrip cs (pyLstrip cs l)

/-- Python `bytes.split(sep)` for a single-byte separator `sep`
(e.g. `value.split(b":")`): the list of chunks between occurrences of `sep`.
`[]` splits to `[[]]`, exactly as `b"".split(b":") == [b""]`. -/
def pySplit (sep : Nat) : List Nat → List (List Nat)
  | [] => [[]]
  | x :: xs =>
    if x = sep then [] :: pySplit sep xs
    else
      match pySplit sep xs with
      | h :: t => (x :: h) :: t
      | [] => [[x]]

/-- Python `sep.join(pieces)` for a single-byte separator. -/
def pyJoin (sep : Nat) : List (List Nat) → List Nat
  | [] => []
  | [p] => p
  | p :: ps => p ++ sep :: pyJoin sep ps

theorem pySplit_ne_nil (sep : Nat) (l : List Nat) : pySplit sep l ≠ [] := by
  induction l with
  | nil => simp [pySplit]
  | cons x xs ih =>
    simp only [pySplit]
    split
    · simp
    · cases h : pySplit sep xs with
      | nil => simp
      | cons h t => simp

/-- `pyJoin` is a left inverse of `pySplit`. -/
theorem pyJoin_pySplit (sep : Nat) (l : List Nat) :
    pyJoin sep (pySplit sep l) = l := by
  induction l with
  | nil => rfl
  | cons x xs ih =>
    simp only [pySplit]
    split
    · subst_eqs
      cases h : pySplit sep xs with
      | nil => exact absurd h (pySplit_ne_nil sep xs)
      | cons h t => rw [h] at ih; simpa [pyJoin] using ih
    · cases h : pySplit sep xs with
      | nil => exact absurd h (pySplit_ne_nil sep xs)
      | cons hd tl =>
        rw [h] at ih
        cases tl with
        | nil => simpa [pyJoin] using ih
        | cons a b => simpa [pyJoin] using ih

/-- Splitting a separator-free chunk yields just that chunk. -/
theorem pySplit_free (sep : Nat) (p : List Nat) (h : ∀ b ∈ p, b ≠ sep) :
    pySplit sep p = [p] := by
  induction p with
  | nil => rfl
  | cons b bs ih =>
    have hb : b ≠ sep := h b (by simp)
    simp only [pySplit, if_neg hb]
    rw [ih (fun x hx => h x (by simp [hx]))]

/-- Splitting `p ++ sep :: rest` where `p` is separator-free peels off `p`. -/
theorem pySplit_append_sep (sep : Nat) (p rest : List Nat)
    (h : ∀ b ∈ p, b ≠ sep) :
    pySplit sep (p ++ sep :: rest) = p :: pySplit sep rest := by
  induction p with
  | nil => simp [pySplit]
  | cons b bs ih =>
    have hb : b ≠ sep := h b (by simp)
    simp only [List.cons_append, pySplit, if_neg hb]
    rw [show bs.append (sep :: rest) = bs ++ sep :: rest from rfl,
      ih (fun x hx => h x (by simp [hx]))]

/-- Splitting the join of separator-free nonempty-list pieces gives the pieces
back. -/
theorem pySplit_pyJoin (sep : Nat) (ps : List (List Nat))
    (hne : ps ≠ []) (hfree : ∀ p ∈ ps, ∀ b ∈ p, b ≠ sep) :
    pySplit sep (pyJoin sep ps) = ps := by
  induction ps with
  | nil => exact absurd rfl hne
  | cons p rest ih =>
    cases rest with
    | nil => exact pySplit_free sep p (fun b hb => hfree p (by simp) b hb)
    | cons q qs =>
      have hjoin : pyJoin sep (p :: q :: qs) = p ++ sep :: pyJoin sep (q :: qs) := rfl
      rw [hjoin, pySplit_append_sep sep p _ (fun b hb => hfree p (by simp) b hb),
        ih (by simp) (fun r hr x hx => hfree r (by simp [hr]) x hx)]

/-! ## The `posixpath` functions used by `rclchm.py` (CPython, bytes flavour)

`rclchm.py` calls `posixpath.normpath`, `posixpath.dirname` and
`posixpath.join` on byte strings; these are embeddings of the CPython
implementations, specialised to the `/` separator (byte 47). -/

/-- One iteration of the component loop inside `posixpath.normpath`:
`''` and `'.'` components are dropped, `'..'` either survives (at the head of
a relative path or after another surviving `'..'`) or pops the previous
component. -/
def normStep (sl : Nat) (acc : List (List Nat)) (comp : List Nat) :
    List (List Nat) :=
  if comp = [] ∨ comp = [46] then acc
  else if comp ≠ [46, 46] ∨ (sl = 0 ∧ acc = []) ∨
      (acc ≠ [] ∧ acc.getLast? = some [46, 46]) then
    acc ++ [comp]
  else if acc ≠ [] then acc.dropLast
  else acc

/-- `initial_slashes` of `posixpath.normpath`: 0, 1, or (POSIX `//` special
case) 2. -/
def initialSlashes (p : List Nat) : Nat :=
  if p.head? = some 47 then
    if p.take 2 = [47, 47] ∧ p.take 3 ≠ [47, 47, 47] then 2 else 1
  else 0

/-- `posixpath.normpath` for byte strings: split on `/`, run the component
loop, rejoin, reattach the initial slashes, and return `'.'` for an empty
result. -/
def pnormpath (p : List Nat) : List Nat :=
  if p = [] then [46]
  else if List.replicate (initialSlashes p) 47 ++
      pyJoin 47 ((pySplit 47 p).foldl (normStep (initialSlashes p)) []) = [] then
    [46]
  else
    List.replicate (initialSlashes p) 47 ++
      pyJoin 47 ((pySplit 47 p).foldl (normStep (initialSlashes p)) [])

/-- `posixpath.join` for byte strings, restricted to two arguments as used by
the chm walker. -/
def pjoin (a b : List Nat) : List Nat :=
  if b.head? = some 47 then b
  else if a = [] ∨ a.getLast? = some 47 then a ++ b
  else a ++ 47 :: b

/-- Index one past the last `/` of `p` (0 when there is none), i.e.
`p.rfind(b"/") + 1`. -/
def lastSlashEnd (p : List Nat) : Nat :=
  ((p.reverse.findIdx? (· = 47)).map (fun i => p.length - i)).getD 0

/-- `posixpath.dirname` for byte strings. -/
def pdirname (p : List Nat) : List Nat :=
  let i := lastSlashEnd p
  let head := p.take i
  if head ≠ [] ∧ head ≠ List.replicate head.length 47 then pyRstrip [47] head
  else head

/-- `os.path.basename` for byte strings on a POSIX system. -/
def pbasename (p : List Nat) : List Nat :=
  p.drop (lastSlashEnd p)

/-! ### `pnormpath` is idempotent

Needed to prove that the recursive chm link walker terminates: the path the
walker appends to the visited list is `pnormpath` of the path it just checked
against that list, and the two coincide because every checked path is itself
already in the image of `pnormpath`. -/

/-- The shape of a finished `new_comps` list: components are nonempty,
not `'.'`, slash-free, and `'..'` occurs only as a leading run, which is empty
for an absolute path. -/
def NormedComps (sl : Nat) (l : List (List Nat)) : Prop :=
  (∀ c ∈ l, c ≠ [] ∧ c ≠ [46] ∧ 47 ∉ c) ∧
  ∃ k rest, l = List.replicate k [46, 46] ++ rest ∧ [46, 46] ∉ rest ∧
    (sl ≠ 0 → k = 0)

theorem pySplit_pieces_sep_free (sep : Nat) (l : List Nat) :
    ∀ p ∈ pySplit sep l, sep ∉ p := by
  induction l with
  | nil => simp [pySplit]
  | cons x xs ih =>
    simp only [pySplit]
    split
    · intro p hp
      rcases List.mem_cons.1 hp with h | h
      · simp [h]
      · exact ih p h
    · rename_i hx
      intro p hp
      rcases h : pySplit sep xs with _ | ⟨hd, tl⟩
      · exact absurd h (pySplit_ne_nil sep xs)
      · rw [h] at hp
        rcases List.mem_cons.1 hp with h1 | h1
        · subst h1
          intro hmem
          rcases List.mem_cons.1 hmem with h2 | h2
          · exact hx h2.symm
          · exact ih hd (by simp [h]) h2
        · exact ih p (by simp [h, h1])

theorem normStep_nil (sl : Nat) (acc : List (List Nat)) :
    normStep sl acc [] = acc := by
  simp [normStep]

/-- Appending an element keeping the `NormedComps` shape. -/
theorem NormedComps.push (sl : Nat) (acc : List (List Nat)) (c : List Nat)
    (hacc : NormedComps sl acc) (hc : c ≠ [] ∧ c ≠ [46] ∧ 47 ∉ c)
    (hcdd : c ≠ [46, 46]) : NormedComps sl (acc ++ [c]) := by
  obtain ⟨helem, k, racc, hshape, hdd, hk⟩ := hacc
  refine ⟨?_, k, racc ++ [c], by simp [hshape], ?_, hk⟩
  · intro x hx
    rcases List.mem_append.1 hx with h | h
    · exact helem x h
    · simp at h; subst h; exact hc
  · intro hmem
    rcases List.mem_append.1 hmem with h | h
    · exact hdd h
    · simp at h; exact hcdd h.symm

/-- The original fold produces a `NormedComps` list. -/
theorem foldl_normStep_normed (sl : Nat) (comps : List (List Nat))
    (hfree : ∀ c ∈ comps, 47 ∉ c) (acc : List (List Nat))
    (hacc : NormedComps sl acc) :
    NormedComps sl (comps.foldl (normStep sl) acc) := by
  induction comps generalizing acc with
  | nil => exact hacc
  | cons c rest ih =>
    refine ih (fun x hx => hfree x (by simp [hx])) (normStep sl acc c) ?_
    have hcfree : 47 ∉ c := hfree c (by simp)
    obtain ⟨helem, k, racc, hshape, hdd, hk⟩ := hacc
    unfold normStep
    split
    · exact ⟨helem, k, racc, hshape, hdd, hk⟩
    · rename_i hcomp
      push_neg at hcomp
      split
      · rename_i hcond
        by_cases hcdd : c = [46, 46]
        · -- a surviving '..'
          subst hcdd
          have hcase : (sl = 0 ∧ acc = []) ∨ (acc ≠ [] ∧
              acc.getLast? = some [46, 46]) := by
            rcases hcond with hne | h | h
            · exact absurd rfl hne
            · exact Or.inl h
            · exact Or.inr h
          have hddlist : ([46, 46] : List Nat) ≠ [] ∧
              ([46, 46] : List Nat) ≠ [46] ∧ 47 ∉ ([46, 46] : List Nat) := by
            refine ⟨by simp, by simp, by simp⟩
          rcases hcase with ⟨hsl, haccnil⟩ | ⟨haccne, hlast⟩
          · subst haccnil
            refine ⟨?_, 1, [], by simp, by simp, fun h => absurd hsl h⟩
            intro x hx; simp at hx; subst hx; exact hddlist
          · -- the accumulator ends in '..', hence is all '..'
            have hrnil : racc = [] := by
              by_contra hr
              rw [hshape, List.getLast?_append_of_ne_nil _ hr] at hlast
              exact hdd (List.mem_of_mem_getLast? hlast)
            subst hrnil
            simp only [List.append_nil] at hshape
            subst hshape
            have hsl0 : sl = 0 := by
              by_contra hsl
              rw [hk hsl] at haccne
              simp at haccne
            refine ⟨?_, k + 1, [], ?_, by simp, fun h => absurd hsl0 h⟩
            · intro x hx
              rcases List.mem_append.1 hx with h | h
              · exact helem x h
              · simp at h; subst h; exact hddlist
            · simp [List.replicate_succ']
        · -- an ordinary surviving component
          exact NormedComps.push sl acc c ⟨helem, k, racc, hshape, hdd, hk⟩
            ⟨hcomp.1, hcomp.2, hcfree⟩ hcdd
      · -- popping: c = '..', the last surviving component is a real name
        split
        · rename_i hcond haccne
          push_neg at hcond
          have hlastne := hcond.2.2 haccne
          have hrne : racc ≠ [] := by
            intro hr
            subst hr
            simp only [List.append_nil] at hshape
            subst hshape
            have hkpos : 0 < k := by
              by_contra h0
              have : k = 0 := by omega
              subst this; simp at haccne
            refine hlastne ?_
            obtain ⟨m, rfl⟩ : ∃ m, k = m + 1 := ⟨k - 1, by omega⟩
            rw [List.replicate_succ']
            exact List.getLast?_concat _
          refine ⟨?_, k, racc.dropLast, ?_, ?_, hk⟩
          · intro x hx
            exact helem x (List.dropLast_subset acc hx)
          · rw [hshape, List.dropLast_append_of_ne_nil _ hrne]
          · intro hmem
            exact hdd (List.dropLast_subset racc hmem)
        · -- c = '..' with an empty accumulator on an absolute path: dropped
          exact ⟨helem, k, racc, hshape, hdd, hk⟩

/-- Folding the normalisation step over an already-normalised component list
reproduces that list. -/
theorem foldl_normStep_self (sl : Nat) (l : List (List Nat))
    (hl : NormedComps sl l) :
    ∀ rest pre, l = pre ++ rest → rest.foldl (normStep sl) pre = l := by
  intro rest
  induction rest with
  | nil => intro pre h; simpa using h.symm
  | cons c rest' ih =>
    intro pre h
    obtain ⟨helem, k, rest₀, hshape, hdd, hk⟩ := hl
    have hc : c ∈ l := by rw [h]; simp
    obtain ⟨hcne, hcdot, hcfree⟩ := helem c hc
    have hstep : normStep sl pre c = pre ++ [c] := by
      unfold normStep
      rw [if_neg (by simp [hcne, hcdot])]
      by_cases hcdd : c = [46, 46]
      · -- the '..' at position |pre| lies inside the leading '..' run
        subst hcdd
        have hlt : pre.length < k := by
          by_contra hge
          push_neg at hge
          have hmem : [46, 46] ∈ l.drop pre.length := by
            rw [h, List.drop_left]; simp
          have hrep : (List.replicate k ([46, 46] : List Nat)).length ≤
              pre.length := by simpa using hge
          rw [hshape,
            (by omega : pre.length =
              (List.replicate k ([46, 46] : List Nat)).length +
              (pre.length - (List.replicate k ([46, 46] : List Nat)).length)),
            List.drop_append] at hmem
          exact hdd (List.drop_subset _ _ hmem)
        have hpre : pre = List.replicate pre.length [46, 46] := by
          have htake : pre = l.take pre.length := by
            rw [h, List.take_left]
          rw [htake, hshape,
            List.take_append_of_le_length (by simp; omega),
            List.take_replicate, Nat.min_eq_left hlt.le]
          simp
        rcases List.eq_nil_or_concat pre with hnil | ⟨_, _, _⟩
        · subst hnil
          have hsl0 : sl = 0 := by
            by_contra hsl
            rw [hk hsl] at hlt
            omega
          rw [if_pos (Or.inr (Or.inl ⟨hsl0, rfl⟩))]
        · have hprene : pre ≠ [] := by
            rename_i heq
            subst heq
            simp
          have hlast : pre.getLast? = some [46, 46] := by
            rw [hpre]
            obtain ⟨m, hm⟩ : ∃ m, pre.length = m + 1 := by
              rcases Nat.eq_zero_or_pos pre.length with h0 | hp
              · exact absurd (List.eq_nil_of_length_eq_zero h0) hprene
              · exact ⟨pre.length - 1, by omega⟩
            rw [hm, List.replicate_succ']
            exact List.getLast?_concat _
          rw [if_pos (Or.inr (Or.inr ⟨hprene, hlast⟩))]
      · rw [if_pos (Or.inl hcdd)]
    rw [List.foldl_cons, hstep]
    exact ih (pre ++ [c]) (by simpa using h)

theorem pyJoin_head (sep : Nat) (c : List Nat) (ps : List (List Nat))
    (hc : c ≠ []) : (pyJoin sep (c :: ps)).head? = c.head? := by
  cases ps with
  | nil => rfl
  | cons p ps =>
    show (c ++ sep :: pyJoin sep (p :: ps)).head? = c.head?
    cases c with
    | nil => exact absurd rfl hc
    | cons b bs => rfl

theorem pySplit_replicate_sep (sep n : Nat) (l : List Nat) :
    pySplit sep (List.replicate n sep ++ l) =
      List.replicate n [] ++ pySplit sep l := by
  induction n with
  | zero => simp
  | succ m ih =>
    rw [List.replicate_succ, List.cons_append]
    show pySplit sep (sep :: (List.replicate m sep ++ l)) = _
    simp only [pySplit, if_pos rfl, ih, List.replicate_succ, List.cons_append]
    simp

theorem foldl_normStep_skip_nil (sl n : Nat) (X : List (List Nat))
    (acc : List (List Nat)) :
    (List.replicate n [] ++ X).foldl (normStep sl) acc =
      X.foldl (normStep sl) acc := by
  induction n generalizing acc with
  | zero => simp
  | succ m ih =>
    rw [List.replicate_succ, List.cons_append, List.foldl_cons, normStep_nil]
    exact ih acc

theorem initialSlashes_cases (p : List Nat) :
    initialSlashes p = 0 ∨ initialSlashes p = 1 ∨ initialSlashes p = 2 := by
  unfold initialSlashes
  split
  · split
    · exact Or.inr (Or.inr rfl)
    · exact Or.inr (Or.inl rfl)
  · exact Or.inl rfl

/-- A `NormedComps` join starts with a byte other than `/`. -/
theorem pyJoin_normed_head (sl : Nat) (nc : List (List Nat))
    (hnorm : NormedComps sl nc) :
    ∀ j js, pyJoin 47 nc = j :: js → j ≠ 47 := by
  intro j js hj
  cases nc with
  | nil => simp [pyJoin] at hj
  | cons c rest =>
    obtain ⟨hcne, _, hcfree⟩ := hnorm.1 c (by simp)
    have hh := pyJoin_head 47 c rest hcne
    rw [hj] at hh
    cases c with
    | nil => exact absurd rfl hcne
    | cons b bs =>
      have h2 : j = b := Option.some.inj (by simpa using hh)
      subst h2
      intro h47
      exact hcfree (by simp [h47])

/-- Re-normalising the output of the normalisation pipeline is the identity:
the slash count is recomputed unchanged and the component fold reproduces the
component list. -/
theorem pnormpath_of_normed (sl : Nat) (nc : List (List Nat))
    (hnorm : NormedComps sl nc) (hsl : sl = 0 ∨ sl = 1 ∨ sl = 2)
    (hne : List.replicate sl 47 ++ pyJoin 47 nc ≠ []) :
    pnormpath (List.replicate sl 47 ++ pyJoin 47 nc) =
      List.replicate sl 47 ++ pyJoin 47 nc := by
  have hA : initialSlashes (List.replicate sl 47 ++ pyJoin 47 nc) = sl := by
    have hj := pyJoin_normed_head sl nc hnorm
    rcases hsl with h0 | h1 | h2
    · subst h0
      simp only [List.replicate, List.nil_append]
      cases hcase : pyJoin 47 nc with
      | nil => rw [hcase] at hne; simp at hne
      | cons j js =>
        unfold initialSlashes
        rw [if_neg (by simp [hj j js hcase])]
    · subst h1
      cases hcase : pyJoin 47 nc with
      | nil => decide
      | cons j js =>
        have hj47 := hj j js hcase
        show initialSlashes (47 :: j :: js) = 1
        unfold initialSlashes
        rw [if_pos (by simp), if_neg ?_]
        rintro ⟨htwo, -⟩
        simp [List.take] at htwo
        exact hj47 htwo
    · subst h2
      cases hcase : pyJoin 47 nc with
      | nil => decide
      | cons j js =>
        have hj47 := hj j js hcase
        show initialSlashes (47 :: 47 :: j :: js) = 2
        unfold initialSlashes
        rw [if_pos (by simp), if_pos ?_]
        refine ⟨by simp [List.take], ?_⟩
        simp [List.take]
        exact hj47
  have hB : (pySplit 47 (List.replicate sl 47 ++ pyJoin 47 nc)).foldl
      (normStep sl) [] = nc := by
    rw [pySplit_replicate_sep, foldl_normStep_skip_nil]
    cases hcase : nc with
    | nil => simp [pyJoin, pySplit, normStep]
    | cons c rest =>
      rw [← hcase,
        pySplit_pyJoin 47 nc (by simp [hcase])
          (fun q hq b hb hb47 => (hnorm.1 q hq).2.2 (hb47 ▸ hb))]
      exact foldl_normStep_self sl nc hnorm nc [] rfl
  unfold pnormpath
  rw [if_neg hne, hA, hB, if_neg hne]

/-- `posixpath.normpath` is idempotent.  This is what makes the visited-set
check of the chm link walker effective: the path appended to the visited list
(normalised a second time by the recursive `ChmWalker` constructor) is exactly
the path that was checked against the list. -/
theorem pnormpath_idem (p : List Nat) : pnormpath (pnormpath p) = pnormpath p := by
  by_cases hp : p = []
  · subst hp
    decide
  · have hnorm : NormedComps (initialSlashes p)
        ((pySplit 47 p).foldl (normStep (initialSlashes p)) []) :=
      foldl_normStep_normed _ (pySplit 47 p)
        (pySplit_pieces_sep_free 47 p)
        [] ⟨by simp, 0, [], rfl, by simp, fun _ => rfl⟩
    by_cases hpath : List.replicate (initialSlashes p) 47 ++
        pyJoin 47 ((pySplit 47 p).foldl (normStep (initialSlashes p)) []) = []
    · have h1 : pnormpath p = [46] := by
        unfold pnormpath
        rw [if_neg hp, if_pos hpath]
      rw [h1]
      decide
    · have h1 : pnormpath p = List.replicate (initialSlashes p) 47 ++
          pyJoin 47 ((pySplit 47 p).foldl (normStep (initialSlashes p)) []) := by
        unfold pnormpath
        rw [if_neg hp, if_neg hpath]
      rw [h1]
      exact pnormpath_of_normed _ _ hnorm (initialSlashes_cases p) hpath

/-! ## Python dynamic values

The filters move values around that are sometimes `str` and sometimes
`bytes`; a few of the claims hinge on exactly that distinction, so it is kept
explicit. -/

/-- A Python value that is either a `str` or a `bytes` object. -/
inductive PyVal where
  | str (s : String)
  | bytes (b : List Nat)
deriving DecidableEq

/-- Python truthiness of a `str`/`bytes` value: nonempty means true. -/
def pyTruthy : PyVal → Bool
  | .str s => s ≠ ""
  | .bytes b => b ≠ []

/-! ## Models of the `re` patterns used by `rclchm.py` and `rclkar.py`

Each compiled pattern of the source is embedded as a dedicated scanner with
the same matching semantics on the inputs the filters give it: leftmost match
start, greedy `[^>]*` / `.*` / `[a-z0-9-]+` pieces (with `.` not crossing a
newline unless the source sets `re.DOTALL`), case-insensitive when the source
sets `re.IGNORECASE`. -/

/-- `re.sub` of a nonempty case-insensitive literal pattern: one replacement
step per fuel unit; each step consumes at least one input byte, so fuel equal
to the input length is always enough. -/
def replaceAllCiF (pat repl : List Nat) : Nat → List Nat → List Nat
  | _, [] => []
  | 0, l => l
  | fuel + 1, x :: xs =>
    if ciStarts pat (x :: xs) ∧ pat ≠ [] then
      repl ++ replaceAllCiF pat repl fuel ((x :: xs).drop pat.length)
    else
      x :: replaceAllCiF pat repl fuel xs

/-- `re.sub` of a nonempty case-insensitive literal pattern (used for
`self._headtagre = re.compile(rb"</head>", re.IGNORECASE)`): replace all
non-overlapping occurrences, left to right. -/
def replaceAllCi (pat repl l : List Nat) : List Nat :=
  replaceAllCiF pat repl l.length l

/-- Index of the last case-insensitive occurrence of `pat` in `l`
(the match a greedy `.*` followed by literal `pat` settles on). -/
def lastCiIdx (pat : List Nat) : List Nat → Option Nat
  | [] => none
  | x :: xs =>
    match lastCiIdx pat xs with
    | some i => some (i + 1)
    | none => if ciStarts pat (x :: xs) then some 0 else none

/-- Attempt to match `rb"<body[^>]*>(.*)</body>"` (IGNORECASE, DOTALL) at the
start of `s`, returning group 1. -/
def bodyTry (s : List Nat) : Option (List Nat) :=
  if ciStarts [60, 98, 111, 100, 121] s then
    let r := s.drop 5
    match r.findIdx? (fun b => b = 62) with
    | none => none
    | some j =>
      let r2 := r.drop (j + 1)
      match lastCiIdx [60, 47, 98, 111, 100, 121, 62] r2 with
      | none => none
      | some k => some (r2.take k)
  else none

/-- `self._bodyre.search(doc)`, group 1: leftmost match start, greedy body. -/
def bodySearch : List Nat → Option (List Nat)
  | [] => none
  | x :: xs =>
    match bodyTry (x :: xs) with
    | some g => some g
    | none => bodySearch xs

/-- Attempt to match `rb"(<head.*</head>)"` (IGNORECASE, DOTALL) at the start
of `s`, returning group 1 (markers included). -/
def headerTry (s : List Nat) : Option (List Nat) :=
  if ciStarts [60, 104, 101, 97, 100] s then
    let r := s.drop 5
    match lastCiIdx [60, 47, 104, 101, 97, 100, 62] r with
    | none => none
    | some k => some (s.take (5 + k + 7))
  else none

/-- `self._headerre.search(doc)`, group 1. -/
def headerSearch : List Nat → Option (List Nat)
  | [] => none
  | x :: xs =>
    match headerTry (x :: xs) with
    | some g => some g
    | none => headerSearch xs

/-- Attempt to match `rb"<title.*</title>"` (no flags: case-sensitive, `.`
stops at a newline) at the start of `s`; returns the greedy length of the
`.*` gap, the whole match being `6 + k + 8` bytes long. -/
def titleTry (s : List Nat) : Option Nat :=
  if List.isPrefixOf [60, 116, 105, 116, 108, 101] s then
    let r := s.drop 6
    let limit := (r.findIdx? (fun b => b = 10)).getD r.length
    ((List.range (limit + 1)).reverse.findSome? (fun k =>
      if List.isPrefixOf [60, 47, 116, 105, 116, 108, 101, 62] (r.drop k) then
        some k
      else none))
  else none

/-- Fuelled worker for `titleSub`; each step consumes at least one byte. -/
def titleSubF (repl : List Nat) : Nat → Nat → List Nat → List Nat
  | _, _, [] => []
  | _, 0, l => l
  | 0, _, l => l
  | fuel + 1, countLeft + 1, x :: xs =>
    match titleTry (x :: xs) with
    | some k =>
      repl ++ titleSubF repl fuel countLeft ((x :: xs).drop (6 + k + 8))
    | none => x :: titleSubF repl fuel (countLeft + 1) xs

/-- The `re.sub(rb"<title.*</title>", ..., doc, re.IGNORECASE | re.DOTALL)`
call of `dumpall`: the fourth positional argument of `re.sub` is `count`, so
the flags value 18 arrives as a replacement budget and no flags are applied. -/
def titleSub (repl : List Nat) (countLeft : Nat) (l : List Nat) : List Nat :=
  titleSubF repl l.length countLeft l

/-- Consume a case-insensitive literal, returning the remaining bytes. -/
def ciLitRest (pat l : List Nat) : Option (List Nat) :=
  if ciStarts pat l then some (l.drop pat.length) else none

/-- Consume `' *'`. -/
def dropSpaces (l : List Nat) : List Nat := l.dropWhile (fun b => b = 32)

/-- Consume one given byte. -/
def byteRest (b : Nat) : List Nat → Option (List Nat)
  | [] => none
  | x :: xs => if x = b then some xs else none

/-- Shared prefix `<meta *http-equiv *= *"content-type"` of the two charset
declaration patterns of `rclCHM.__init__` (both `re.IGNORECASE`). -/
def metaCtRest (s : List Nat) : Option (List Nat) := do
  let r1 ← ciLitRest [60, 109, 101, 116, 97] s
  let r2 ← ciLitRest [104, 116, 116, 112, 45, 101, 113, 117, 105, 118]
    (dropSpaces r1)
  let r3 ← byteRest 61 (dropSpaces r2)
  let r4 ← ciLitRest
    [34, 99, 111, 110, 116, 101, 110, 116, 45, 116, 121, 112, 101, 34]
    (dropSpaces r3)
  pure r4

/-- Greedy `.*` (no DOTALL: the gap may not contain a newline) followed by a
tail matcher: the largest viable gap wins. -/
def greedyGapTail {α : Type} (tail : List Nat → Option α) (r : List Nat) :
    Option (Nat × α) :=
  let limit := (r.findIdx? (fun b => b = 10)).getD r.length
  (List.range (limit + 1)).reverse.findSome? (fun k =>
    (tail (r.drop k)).map (fun a => (k, a)))

/-- Tail `charset *= *((us-)?ascii)( *" *>)` of `asciito1252re`: returns
`(start, stop, matchStop)` offsets of group 2 and of the whole tail. -/
def asciiTail (s : List Nat) : Option (Nat × Nat × Nat) := do
  let r1 ← ciLitRest [99, 104, 97, 114, 115, 101, 116] s
  let r3 ← byteRest 61 (dropSpaces r1)
  let r4 := dropSpaces r3
  let (tokLen, r5) ←
    match ciLitRest [117, 115, 45, 97, 115, 99, 105, 105] r4 with
    | some t => some (8, t)
    | none => (ciLitRest [97, 115, 99, 105, 105] r4).map (fun t => (5, t))
  let r7 ← byteRest 34 (dropSpaces r5)
  let r9 ← byteRest 62 (dropSpaces r7)
  let aStart := s.length - r4.length
  pure (aStart, aStart + tokLen, s.length - r9.length)

/-- Leftmost match of `asciito1252re` in `doc`: absolute span of the
`(us-)?ascii` token. -/
def asciiMatch (doc : List Nat) : Option (Nat × Nat) :=
  (List.range (doc.length + 1)).findSome? (fun i =>
    (metaCtRest (doc.drop i)).bind (fun r =>
      (greedyGapTail asciiTail r).map (fun ka =>
        let base := i + ((doc.drop i).length - r.length) + ka.1
        (base + ka.2.1, base + ka.2.2.1))))

/-- `self.asciito1252re.sub(rb"\1windows-1252\4", text, 1)`: replace the
charset token of the first matching ascii content-type declaration by
`windows-1252`. -/
def asciiSub (doc : List Nat) : List Nat :=
  match asciiMatch doc with
  | none => doc
  | some (s, e) =>
    doc.take s ++ [119, 105, 110, 100, 111, 119, 115, 45, 49, 50, 53, 50] ++
      doc.drop e

/-- The `[a-z0-9-]` class of `findcharsetre`, case-insensitive. -/
def isCharsetByte (b : Nat) : Bool :=
  (97 ≤ b ∧ b ≤ 122) ∨ (65 ≤ b ∧ b ≤ 90) ∨ (48 ≤ b ∧ b ≤ 57) ∨ b = 45

/-- Tail `charset *= *([a-z0-9-]+) *" *>` of `findcharsetre`: returns the
charset token. -/
def charsetTail (s : List Nat) : Option (List Nat) := do
  let r1 ← ciLitRest [99, 104, 97, 114, 115, 101, 116] s
  let r3 ← byteRest 61 (dropSpaces r1)
  let r4 := dropSpaces r3
  let tok := r4.takeWhile isCharsetByte
  if tok = [] then none
  else do
    let r7 ← byteRest 34 (dropSpaces (r4.drop tok.length))
    let _ ← byteRest 62 (dropSpaces r7)
    pure tok

/-- `self.findcharsetre.search(text)`, group 1. -/
def findCharset (doc : List Nat) : Option (List Nat) :=
  (List.range (doc.length + 1)).findSome? (fun i =>
    (metaCtRest (doc.drop i)).bind (fun r =>
      (greedyGapTail charsetTail r).map (fun ka => ka.2)))

/-! ## `urllib.parse.unquote` and UTF-8 decoding -/

/-- Hexadecimal digit value of a character, as accepted by `unquote`. -/
def hexVal (c : Char) : Option Nat :=
  if '0' ≤ c ∧ c ≤ '9' then some (c.toNat - 48)
  else if 'a' ≤ c ∧ c ≤ 'f' then some (c.toNat - 87)
  else if 'A' ≤ c ∧ c ≤ 'F' then some (c.toNat - 55)
  else none

/-- A decoding-failure replacement character, U+FFFD. -/
def replChar : Char := Char.ofNat 0xFFFD

/-- Whether a byte is a UTF-8 continuation byte. -/
def isCont (b : Nat) : Bool := 0x80 ≤ b ∧ b ≤ 0xBF

/-- Fuelled worker for `utf8Decode`; each step consumes at least one byte. -/
def utf8DecodeF : Nat → List Nat → List Char
  | _, [] => []
  | 0, _ => []
  | fuel + 1, b :: rest =>
    if b < 0x80 then Char.ofNat b :: utf8DecodeF fuel rest
    else if 0xC2 ≤ b ∧ b ≤ 0xDF then
      match rest with
      | b2 :: rest2 =>
        if isCont b2 then
          Char.ofNat ((b - 0xC0) * 64 + (b2 - 0x80)) :: utf8DecodeF fuel rest2
        else replChar :: utf8DecodeF fuel (b2 :: rest2)
      | [] => [replChar]
    else if 0xE0 ≤ b ∧ b ≤ 0xEF then
      match rest with
      | b2 :: b3 :: rest3 =>
        if isCont b2 && isCont b3 then
          let cp := (b - 0xE0) * 4096 + (b2 - 0x80) * 64 + (b3 - 0x80)
          if cp < 0x800 ∨ (0xD800 ≤ cp ∧ cp ≤ 0xDFFF) then
            replChar :: utf8DecodeF fuel (b2 :: b3 :: rest3)
          else Char.ofNat cp :: utf8DecodeF fuel rest3
        else replChar :: utf8DecodeF fuel (b2 :: b3 :: rest3)
      | ls => replChar :: utf8DecodeF fuel ls
    else if 0xF0 ≤ b ∧ b ≤ 0xF4 then
      match rest with
      | b2 :: b3 :: b4 :: rest4 =>
        if isCont b2 && isCont b3 && isCont b4 then
          let cp := (b - 0xF0) * 262144 + (b2 - 0x80) * 4096 +
            (b3 - 0x80) * 64 + (b4 - 0x80)
          if cp < 0x10000 ∨ 0x10FFFF < cp then
            replChar :: utf8DecodeF fuel (b2 :: b3 :: b4 :: rest4)
          else Char.ofNat cp :: utf8DecodeF fuel rest4
        else replChar :: utf8DecodeF fuel (b2 :: b3 :: b4 :: rest4)
      | ls => replChar :: utf8DecodeF fuel ls
    else replChar :: utf8DecodeF fuel rest

/-- UTF-8 decoding with `errors="replace"`: ill-formed leading bytes are
replaced and skipped one byte at a time. -/
def utf8Decode (l : List Nat) : List Char := utf8DecodeF l.length l

/-- Collect a maximal run of `%hh` triples. -/
def takePcts : List Char → List Nat × List Char
  | '%' :: c1 :: c2 :: rest =>
    match hexVal c1, hexVal c2 with
    | some h1, some h2 =>
      let pr := takePcts rest
      ((16 * h1 + h2) :: pr.1, pr.2)
    | _, _ => ([], '%' :: c1 :: c2 :: rest)
  | l => ([], l)

theorem takePcts_length_le (l : List Char) : (takePcts l).2.length ≤ l.length := by
  induction l using takePcts.induct
  all_goals simp_all [takePcts]
  all_goals omega

/-- Fuelled worker for `pyUnquote`; each step consumes at least one char. -/
def pyUnquoteAuxF : Nat → List Char → List Char
  | _, [] => []
  | 0, l => l
  | fuel + 1, '%' :: c1 :: c2 :: rest =>
    match hexVal c1, hexVal c2 with
    | some h1, some h2 =>
      let pr := takePcts rest
      utf8Decode ((16 * h1 + h2) :: pr.1) ++ pyUnquoteAuxF fuel pr.2
    | _, _ => '%' :: pyUnquoteAuxF fuel (c1 :: c2 :: rest)
  | fuel + 1, c :: rest => c :: pyUnquoteAuxF fuel rest

/-- `urllib.parse.unquote(value)` with the default UTF-8 codec and `replace`
error handling: each maximal run of `%hh` escapes is percent-decoded to bytes
and UTF-8-decoded; a `%` not followed by two hex digits stays literal. -/
def pyUnquote (s : String) : String :=
  String.mk (pyUnquoteAuxF s.data.length s.data)

/-- The worker of `pySplitChar`: accumulate the current piece (reversed)
while scanning. -/
def splitCharAux (sep : Char) : List Char → List Char → List (List Char)
  | [], cur => [cur.reverse]
  | c :: rest, cur =>
    if c = sep then cur.reverse :: splitCharAux sep rest []
    else splitCharAux sep rest (c :: cur)

/-- Python `str.split(sep)` for a one-character separator (the only form the
filters use): every occurrence of `sep` bounds a piece, empty pieces kept,
`"".split(sep) == [""]`. -/
def pySplitChar (sep : Char) (s : String) : List String :=
  (splitCharAux sep s.data []).map String.mk

/-! ## `urllib.parse.urlparse`, restricted to the fields the walker reads -/

/-- The characters CPython's `urlsplit` allows inside a scheme. -/
def isSchemeChar (c : Char) : Bool :=
  c.isAlpha ∨ ('0' ≤ c ∧ c ≤ '9') ∨ c = '+' ∨ c = '-' ∨ c = '.'

/-- The `scheme` and `path` fields of
`urllib.parse.urlparse(href)` (CPython `urlsplit`): extract a lowercased
scheme before the first `:` when its characters qualify, then strip the
fragment at the first `#`, a `//netloc`, and the query at the first `?`. -/
def urlSchemePath (href : String) : String × String :=
  let cs := href.data
  let (scheme, rest) :=
    match cs.findIdx? (fun c => c = ':') with
    | some i =>
      if 0 < i ∧ (cs.take i).all isSchemeChar then
        (String.mk ((cs.take i).map Char.toLower), cs.drop (i + 1))
      else ("", cs)
    | none => ("", cs)
  let rest := rest.takeWhile (fun c => c ≠ '#')
  let rest :=
    match rest with
    | '/' :: '/' :: after =>
      after.dropWhile (fun c => c ≠ '/' ∧ c ≠ '?')
    | r => r
  (scheme, String.mk (rest.takeWhile (fun c => c ≠ '?')))

/-! ## The `rclexecm` eof constants

`rclexecm.py` is not part of the source tree under examination (only its
callers are). Modelled from the spec: the transport's eof state is one of
`{more, lastItem, alreadyDone}`, surfaced by the filters as the integer
constants `RclExecM.noteof` / `RclExecM.eofnext` / `RclExecM.eofnow`; they
are consecutive small integers, which also makes `rclinfo.py`'s use of the
Python literal `True` in an eof slot coincide with `eofnext`. -/

namespace RclExecM

/-- eof state `more`: further documents follow. -/
def noteof : Nat := 0

/-- eof state `lastItem`: this answer is the final document. -/
def eofnext : Nat := 1

/-- eof state `alreadyDone`: the stream was already exhausted. -/
def eofnow : Nat := 2

end RclExecM

/-! ## `rclchm.py` -/

/-- The queryable surface of the external chm library (`chm.CHMFile`) and of
the Python runtime services (`HTMLParser` event delivery, codec tables) that
`rclchm.py` consumes, per open container. `files` lists the internal paths
that `ResolveObject` resolves, with the `RetrieveObject` result pair for
each; `knownCodec` is the codec registry — whether
`bytes.decode(charset, ...)` resolves the charset token, or raises
`LookupError` before any error handler applies. -/
structure ChmLib where
  loadOk : Bool
  topics : Option (List Nat)
  home : List Nat
  title : PyVal
  files : List (List Nat × Nat × List Nat)
  parseEvents : String → List (String × List (String × String))
  pydecode : String → List Nat → String
  pyencode : String → String → List Nat
  knownCodec : String → Bool

/-- `getfile(chmfile, path)`: empty `str` on resolve or retrieve failure,
the document bytes otherwise. -/
def getfile (lib : ChmLib) (path : List Nat) : PyVal :=
  match lib.files.lookup path with
  | none => .str ""
  | some (res, doc) => if res = 0 then .str "" else .bytes doc

/-- `peekfile(chmfile, path, charset)`: does the path resolve? -/
def peekfile (lib : ChmLib) (path : PyVal) (charset : String) : Bool :=
  let b := match path with
    | .str s => lib.pyencode charset s
    | .bytes bs => bs
  (lib.files.lookup b).isSome

/-- The charset `fixencoding` decodes with: the token of the declared
content-type charset of the (ascii-substituted) document, `cp1252` when
there is none. -/
def declaredCharset (b : List Nat) : String :=
  match findCharset (asciiSub b) with
  | some m => String.mk (m.map Char.ofNat)
  | none => "cp1252"

/-- `rclCHM.fixencoding(text)`: on bytes, rewrite an ascii charset
declaration to windows-1252, pick the declared (or fallback cp1252) charset,
and decode — `text.decode(charset, errors=\x22replace\x22)` raises
`LookupError` when the declared charset is not a registered codec (the
`replace` handler only covers decoding errors, not the codec lookup); on a
`str` argument the function raises `UnboundLocalError`, because the
`charset` variable it returns is assigned only inside the bytes branch. -/
def fixencoding (lib : ChmLib) (text : PyVal) : Except Unit (String × String) :=
  match text with
  | .bytes b =>
    let b1 := asciiSub b
    let charset := declaredCharset b
    if lib.knownCodec charset then .ok (lib.pydecode charset b1, charset)
    else .error ()
  | .str _ => .error ()

/-- The `name`/`value` extraction loop at the head of both `handle_starttag`
methods: the last attribute with the given key wins, defaulting to `""`. -/
def lastAttr (key : String) (attrs : List (String × String)) : String :=
  attrs.foldl (fun acc nv => if nv.1 = key then nv.2 else acc) ""

/-- `ChmTopicsParser.handle_starttag`: keep the value of a `param` record
named `Local`, url-unquoted; a plain value is kept as is, a four-field
colon-separated value keeps the trailing path if the interior file field is
nonempty and the path resolves; drop paths with `#`; slash-prefix and encode
the survivor. -/
def topicsStart (lib : ChmLib) (charset : String) (contents : List (List Nat))
    (tag : String) (attrs : List (String × String)) : List (List Nat) :=
  if tag ≠ "param" then contents
  else
    let name := lastAttr "name" attrs
    let value := lastAttr "value" attrs
    if name ≠ "Local" ∨ value = "" then contents
    else
      let value := pyUnquote value
      let ll := pySplitChar ':' value
      let localpath :=
        if ll.length = 1 then value
        else if ll.length = 4 ∧ ll.getLastD "" ≠ "" ∧ (ll.get? 1).getD "" ≠ ""
        then
          let lp := ll.getLastD ""
          if peekfile lib (.str lp) charset then lp else ""
        else ""
      if localpath.length ≠ 0 ∧ ¬localpath.data.contains '#' then
        let localpath :=
          if localpath.data.head? ≠ some '/' then "/" ++ localpath
          else localpath
        contents ++ [lib.pyencode charset localpath]
      else contents

/-- `ChmTopicsParser(...).feed(text)`: deliver every start-tag event of the
decoded topics object to `handle_starttag`. -/
def topicsFeed (lib : ChmLib) (charset : String) (contents : List (List Nat))
    (text : String) : List (List Nat) :=
  (lib.parseEvents text).foldl
    (fun acc ev => topicsStart lib charset acc ev.1 ev.2) contents

/-- ASCII bytes of a literal, for embedding the byte-string literals of the
source. -/
def asciiBytes (s : String) : List Nat := s.data.map Char.toNat

/-- The href-to-candidate-path logic of `ChmWalker.handle_starttag`: a
schemeless href (the `res.scheme.lower == "ms-its"` disjunct of the source
compares a bound method against a string and is never true, so a
scheme-qualified href never qualifies) is split on `:`; a three-field form
keeps the trailing path when it resolves, a plain form is kept as is; the
survivor is encoded and normalised against `dir` when relative. -/
def walkerCandidate (lib : ChmLib) (charset : String) (dir : List Nat)
    (attrs : List (String × String)) : Option (List Nat) :=
  let href := lastAttr "href" attrs
  let sp := urlSchemePath href
  let path :=
    if sp.1 = "" then
      let lpath := pySplitChar ':' sp.2
      if lpath.length = 3 then
        let p := (lpath.get? 2).getD ""
        if peekfile lib (.str p) charset then p else ""
      else if lpath.length = 1 then (lpath.get? 0).getD ""
      else ""
    else ""
  if path ≠ "" then
    let bpath := lib.pyencode charset path
    some (if path.data.head? = some '/' then pnormpath bpath
          else pnormpath (pjoin dir bpath))
  else none

/-- One level of the recursive link walk of `ChmWalker`, driven by the
start-tag events of the current document; `descend` walks the links of a
newly fetched document (the nested `ChmWalker` constructor normalises the
path again and appends it to the shared visited list before its links are
walked; a failure inside the `try` block, e.g. `fixencoding` raising, is
swallowed with the path already appended). -/
def chmWalkGo (lib : ChmLib) (charset : String)
    (descend : List Nat → List (List Nat) →
      List (String × List (String × String)) → Option (List (List Nat))) :
    List Nat → List (List Nat) →
    List (String × List (String × String)) → Option (List (List Nat))
  | _, contents, [] => some contents
  | dir, contents, (tag, attrs) :: evs =>
    if tag ≠ "a" then chmWalkGo lib charset descend dir contents evs
    else
      match walkerCandidate lib charset dir attrs with
      | none => chmWalkGo lib charset descend dir contents evs
      | some npath =>
        if npath ∈ contents then chmWalkGo lib charset descend dir contents evs
        else
          let v := getfile lib npath
          if pyTruthy v then
            let npath2 := pnormpath npath
            let dir2 := pdirname npath2
            let contents1 := contents ++ [npath2]
            match fixencoding lib v with
            | .error _ => chmWalkGo lib charset descend dir contents1 evs
            | .ok tc =>
              match descend dir2 contents1 (lib.parseEvents tc.1) with
              | none => none
              | some contents2 =>
                chmWalkGo lib charset descend dir contents2 evs
          else chmWalkGo lib charset descend dir contents evs

/-- The recursive link walk of `ChmWalker`.  One fuel unit is spent per
descent into a newly fetched document; `none` means the fuel ran out
(`chmWalk_total` below shows this never happens when the fuel exceeds the
number of fetchable container files not yet visited). -/
def chmWalk (lib : ChmLib) (charset : String) :
    Nat → List Nat → List (List Nat) →
    List (String × List (String × String)) → Option (List (List Nat))
  | 0 => chmWalkGo lib charset (fun _ _ _ => none)
  | fuel + 1 => chmWalkGo lib charset (chmWalk lib charset fuel)

/-- The per-open session state of `rclCHM`. -/
structure ChmState where
  lib : ChmLib
  contents : List (List Nat)
  currentindex : Int
  catenate : Bool
  charset : String
  closed : Bool

/-- `rclCHM.extractone(path, norclaptag)`: the eof slot reports `eofnext`
exactly when the session cursor sits at or past the penultimate index; the
body is the retrieved document with the `rclaptg` meta tag spliced in before
`</head>` unless `norclaptag` is set. -/
def chmExtractone (s : ChmState) (path : PyVal) (norclaptag : Bool) :
    Bool × List Nat × List Nat × Nat :=
  let pathB := match path with
    | .str st => s.lib.pyencode s.charset st
    | .bytes b => b
  let iseof := if s.currentindex ≥ (s.contents.length : Int) - 1 then
    RclExecM.eofnext else RclExecM.noteof
  match s.lib.files.lookup pathB with
  | none => (false, [], pathB, iseof)
  | some (res, doc) =>
    if 0 < res then
      let doc := if ¬norclaptag then
          replaceAllCi (asciiBytes "</head>")
            (asciiBytes "<meta name=\x22rclaptg\x22 content=\x22chm\x22></head>")
            doc
        else doc
      (true, doc, pathB, iseof)
    else (false, [], pathB, iseof)

/-- The accumulation loop of `rclCHM.dumpall`: walk the contents in order,
prepend the (title-substituted) first headered document as combined header,
and append every body region in order. -/
def dumpLoop (s : ChmState) : List (List Nat) → List Nat → Bool → List Nat
  | [], alltxt, _ => alltxt
  | pth :: rest, alltxt, first =>
    let r := chmExtractone s (.bytes pth) true
    if ¬r.1 then dumpLoop s rest alltxt first
    else
      let doc := r.2.1
      let af :=
        if first then
          match headerSearch doc with
          | some _ =>
            let titleB := match s.lib.title with
              | .str st => s.lib.pyencode s.charset st
              | .bytes b => b
            let header := titleSub
              (asciiBytes "<title>" ++ titleB ++ asciiBytes "</title>") 18 doc
            (alltxt ++ header ++ asciiBytes "<body>", false)
          | none => (alltxt, first)
        else (alltxt, first)
      let alltxt2 := match bodySearch doc with
        | some body => af.1 ++ body
        | none => af.1
      dumpLoop s rest alltxt2 af.2

/-- `rclCHM.dumpall()`. -/
def chmDumpall (s : ChmState) : List Nat :=
  dumpLoop s s.contents [] true ++ asciiBytes "</body></html>"

/-- `rclCHM.getnext(params)`: catenate mode dumps everything at once;
otherwise the synthetic self-document comes first, then one document per
contents entry, then failures with `eofnow`. -/
def chmGetnext (s : ChmState) : (Bool × List Nat × List Nat × Nat) × ChmState :=
  if s.catenate then
    let alltxt := chmDumpall s
    let s1 := { s with closed := true }
    if alltxt ≠ [] then ((true, alltxt, [], RclExecM.eofnext), s1)
    else ((false, [], [], RclExecM.eofnow), s1)
  else if s.currentindex = -1 then
    if s.contents.length = 0 then
      ((true, [], [], RclExecM.eofnext),
        { s with currentindex := 0, closed := true })
    else
      ((true, [], [], RclExecM.noteof), { s with currentindex := 0 })
  else if (s.contents.length : Int) ≤ s.currentindex then
    ((false, [], [], RclExecM.eofnow), { s with closed := true })
  else
    let ret := chmExtractone s
      (.bytes (s.contents.getD s.currentindex.toNat [])) false
    let closed1 := s.closed ∨ ret.2.2.2 = RclExecM.eofnext ∨
      ret.2.2.2 = RclExecM.eofnow
    (ret, { s with currentindex := s.currentindex + 1, closed := closed1 })

/-- `rclCHM.getipath(params)`: fetch by address, no cursor mutation. -/
def chmGetipath (s : ChmState) (ipath : List Nat) :
    Bool × List Nat × List Nat × Nat :=
  chmExtractone s (.bytes ipath) false

/-- The order-preserving de-duplication at the end of `rclCHM.openfile` (the
source threads a growing membership set `u` alongside the output list `ct`;
the set always holds exactly the elements of the list, so the fold tests the
list directly). -/
def dedupList (l : List (List Nat)) : List (List Nat) :=
  l.foldl (fun ct t => if t ∈ ct then ct else ct ++ [t]) []

/-- Count of container files that `getfile` would fetch successfully and that
are not yet in the visited list: the termination measure of the link walk. -/
def freshCount (lib : ChmLib) (contents : List (List Nat)) : Nat :=
  (lib.files.filter
    (fun e => e.2.1 ≠ 0 ∧ e.2.2 ≠ [] ∧ e.1 ∉ contents)).length

/-- The no-topics branch of `rclCHM.openfile`: slash-prefix the home address,
fetch it, and walk its link tree (the walker is constructed on the
unprefixed `self.chm.home` and normalises it; `self.charset` is updated from
`fixencoding` before `feed` runs). -/
def chmOpenNoTopics (lib : ChmLib) (catenate : Bool) :
    Except Unit (Option ChmState) :=
  if lib.home = [] then .ok none
  else
    let home := if lib.home.head? ≠ some 47 then 47 :: lib.home else lib.home
    let v := getfile lib home
    if ¬pyTruthy v then .ok none
    else
      let npath := pnormpath lib.home
      let dir := pdirname npath
      match fixencoding lib v with
      | .error e => .error e
      | .ok tc =>
        let res := chmWalk lib tc.2 (freshCount lib [npath] + 1) dir [npath]
          (lib.parseEvents tc.1)
        .ok (some { lib := lib,
                    contents := dedupList (res.getD [npath]),
                    currentindex := -1, catenate := catenate,
                    charset := tc.2, closed := false })

/-- `rclCHM.openfile(params)`: `.ok none` embeds `return False`, `.ok (some
s)` a successful open, and `.error` an uncaught exception escaping the
method, which can happen through the codec lookup of the two uncaught
`fixencoding` calls (a bad declared charset in the topics object or the
home document). -/
def chmOpenfile (lib : ChmLib) (catenate : Bool) :
    Except Unit (Option ChmState) :=
  if ¬lib.loadOk then .ok none
  else
    match lib.topics with
    | some t =>
      if t ≠ [] then
        match fixencoding lib (.bytes t) with
        | .error e => .error e
        | .ok tc =>
          .ok (some { lib := lib,
                      contents := dedupList (topicsFeed lib tc.2 [] tc.1),
                      currentindex := -1, catenate := catenate,
                      charset := tc.2, closed := false })
      else chmOpenNoTopics lib catenate
    | none => chmOpenNoTopics lib catenate

/-! ## `rclinfo.py`

GNU-info node names mix Python types: an explicit `Node:` value is `bytes`,
while a `File:` line without one leaves `nodename = str(index)`, a `str`.
The two never compare equal in CPython and concatenating the latter with a
bytes separator raises `TypeError`, so the embedding keeps the distinction
through `PyVal`. -/

/-- The diagnostics `InfoSimpleSplitter.splitinfo` prints to stderr. -/
inductive InfoLog where
  | badLine (infofile line : List Nat)
  | dupNode (nodename : PyVal)
  | upMissing (title missing : List Nat)
  | badTree
deriving DecidableEq

/-- `node_dict[nodename] = up`: replace in place, else append (CPython dict
update semantics restricted to what the splitter observes). -/
def dictSet (d : List (PyVal × List Nat)) (k : PyVal) (v : List Nat) :
    List (PyVal × List Nat) :=
  match d with
  | [] => [(k, v)]
  | (k1, v1) :: t => if k1 = k then (k, v) :: t else (k1, v1) :: dictSet t k v

/-- The state of the line loop of `splitinfo`. -/
structure ScanSt where
  gotblankline : Bool
  index : Nat
  listout : List (PyVal × List Nat)
  nodeDict : List (PyVal × List Nat)
  node : List Nat
  infofile : List Nat
  nodename : PyVal
  logs : List InfoLog

/-- The `for pair in pairs` try-block: split each pair on `:`, strip, and
update `(nodename, up, infofile)`; a pair that does not split into exactly
two fields raises, leaving the updates made so far in place.  Returns the
success flag with the state at the stop point. -/
def procPairs : List (List Nat) → PyVal → List Nat → List Nat →
    Bool × PyVal × List Nat × List Nat
  | [], nn, up, inf => (true, nn, up, inf)
  | pair :: rest, nn, up, inf =>
    match pySplit 58 pair with
    | [name0, value0] =>
      let name := pyStrip [32] name0
      let value := pyStrip [32] value0
      procPairs rest
        (if name = asciiBytes "Node" then .bytes value else nn)
        (if name = asciiBytes "Up" then value else up)
        (if name = asciiBytes "File" then value else inf)
    | _ => (false, nn, up, inf)

/-- One iteration of the line loop of `splitinfo`. -/
def scanLine (st : ScanSt) (line : List Nat) : ScanSt :=
  if st.gotblankline ∧ List.isPrefixOf (asciiBytes "File: ") (pyLstrip [32] line)
  then
    let prevnodename := st.nodename
    let lineR := pyRstrip [10, 13] line
    let pairs := pySplit 44 lineR
    let r := procPairs pairs
      (.str (String.mk ((natToDecBytes st.index).map Char.ofNat)))
      (asciiBytes "Top") st.infofile
    if ¬r.1 then
      -- `except`: log, restore `nodename`, keep the stripped line, `continue`
      { st with infofile := r.2.2.2,
                nodename := prevnodename,
                node := st.node ++ lineR,
                logs := st.logs ++ [.badLine r.2.2.2 lineR] }
    else
      { gotblankline := pyRstrip [10, 13] lineR = [],
        index := st.index + 1,
        listout := if st.index ≠ 0 then st.listout ++ [(prevnodename, st.node)]
          else st.listout,
        nodeDict := dictSet st.nodeDict r.2.1 r.2.2.1,
        node := lineR,
        infofile := r.2.2.2,
        nodename := r.2.1,
        logs := st.logs ++
          (if (st.nodeDict.lookup r.2.1).isSome then [.dupNode r.2.1] else []) }
  else
    { st with gotblankline := pyRstrip [10, 13] line = [],
              node := st.node ++ line }

/-- The first pass of `splitinfo` over the `info --subnodes` output lines. -/
def infoScan (filename : List Nat) (lines : List (List Nat)) : ScanSt :=
  lines.foldl scanLine
    { gotblankline := true, index := 0, listout := [], nodeDict := [],
      node := [], infofile := pbasename filename,
      nodename := .bytes (asciiBytes "Unknown"), logs := [] }

/-- `splitinfo`'s trailing `if node != b"": listout.append(...)`. -/
def infoListout (st : ScanSt) : List (PyVal × List Nat) :=
  if st.node ≠ [] then st.listout ++ [(st.nodename, st.node)] else st.listout

/-- The `while nodename != b"Top"` title loop: prepend the node name, follow
the `Up` pointer, fail the record on a missing parent or after more than 50
hops.  A `str` node name never equals the bytes sentinel and raises
`TypeError` on concatenation (`.error`).  The source counts hops upward and
breaks when `loop > 50`; here the remaining budget counts downward from 50,
which is the same loop byte for byte. -/
def titleLoop (dict : List (PyVal × List Nat)) :
    Nat → PyVal → List Nat → Except Unit (Bool × List Nat × List InfoLog)
  | fuel, nodename, title =>
    if nodename = .bytes (asciiBytes "Top") then .ok (false, title, [])
    else
      match nodename with
      | .str _ => .error ()
      | .bytes nb =>
        let title1 := nb ++ asciiBytes " / " ++ title
        match dict.lookup (PyVal.bytes nb) with
        | some up =>
          match fuel with
          | 0 => .ok (true, title1, [.badTree])
          | f + 1 => titleLoop dict f (.bytes up) title1
        | none => .ok (true, title1, [.upMissing title1 nb])

/-- The second pass of `splitinfo`: resolve each record's title path,
skipping defective records. -/
def resolveTitles (infofile : List Nat) (dict : List (PyVal × List Nat)) :
    List (PyVal × List Nat) →
    Except Unit (List (List Nat × List Nat) × List InfoLog)
  | [] => .ok ([], [])
  | (nodename, node) :: rest => do
    let r ← titleLoop dict 50 nodename []
    let tail ← resolveTitles infofile dict rest
    if r.1 then pure (tail.1, r.2.2 ++ tail.2)
    else
      let title := if r.2.1 = [] then infofile
        else infofile ++ asciiBytes " / " ++ r.2.1
      let title := pyRstrip (asciiBytes " / ") title
      pure ((title, node) :: tail.1, r.2.2 ++ tail.2)

/-- `InfoSimpleSplitter().splitinfo(filename, stream)`: scan, then resolve. -/
def splitinfo (filename : List Nat) (lines : List (List Nat)) :
    Except Unit (List (List Nat × List Nat) × List InfoLog) := do
  let st := infoScan filename lines
  let r ← resolveTitles st.infofile st.nodeDict (infoListout st)
  pure (r.1, st.logs ++ r.2)

/-- The per-open session state of `InfoExtractor`. `esc` stands for
`rclexecm.htmlescape`, an external collaborator (HTML-escaping is out of the
specified scope). -/
structure InfoState where
  contents : List (List Nat × List Nat)
  currentindex : Int
  esc : List Nat → List Nat

/-- `InfoExtractor.extractone(index)`.  The out-of-range branch returns the
Python literal `True` in the eof slot, numerically `RclExecM.eofnext`. -/
def infoExtractone (s : InfoState) (index : Nat) :
    Bool × List Nat × List Nat × Nat :=
  if s.contents.length ≤ index then (false, [], [], 1)
  else
    let nb := s.contents.getD index ([], [])
    let nodename := s.esc nb.1
    let docdata := s.esc nb.2
    let wrapped :=
      asciiBytes "\n<html>\n  <head>\n      <title>" ++ nodename ++
      asciiBytes "</title>\n" ++
      asciiBytes "      <meta name=\x22rclaptg\x22 content=\x22gnuinfo\x22>\n" ++
      asciiBytes "   </head>\n   <body>\n" ++
      asciiBytes "   <pre style=\x22white-space: pre-wrap\x22>\n   " ++
      docdata ++ asciiBytes "\n   </pre></body>\n</html>\n"
    let iseof := if s.currentindex ≥ (s.contents.length : Int) - 1 then
      RclExecM.eofnext else RclExecM.noteof
    (true, wrapped, natToDecBytes index, iseof)

/-- `int(bytes)` restricted to plain digit strings; `none` embeds the raise.
-/
def parsePyInt (b : List Nat) : Option Nat :=
  if b ≠ [] ∧ b.all (fun c => 48 ≤ c ∧ c ≤ 57) then
    some (b.foldl (fun a c => 10 * a + (c - 48)) 0)
  else none

/-- `InfoExtractor.getipath(params)`. -/
def infoGetipath (s : InfoState) (ipath : List Nat) :
    Bool × List Nat × List Nat × Nat :=
  match parsePyInt ipath with
  | none => (false, [], [], 1)
  | some i => infoExtractone s i

/-- `InfoExtractor.getnext(params)`. -/
def infoGetnext (s : InfoState) :
    (Bool × List Nat × List Nat × Nat) × InfoState :=
  if s.currentindex = -1 then
    if s.contents.length = 0 then
      ((true, [], [], RclExecM.eofnext), { s with currentindex := 0 })
    else ((true, [], [], RclExecM.noteof), { s with currentindex := 0 })
  else if (s.contents.length : Int) ≤ s.currentindex then
    ((false, [], [], RclExecM.eofnow), s)
  else
    (infoExtractone s s.currentindex.toNat, { s with currentindex := s.currentindex + 1 })

/-! ## `rclics.py` (the default internal-splitter configuration) -/

/-- The per-open session state of `IcalExtractor`. -/
structure IcsState where
  contents : List (List Nat)
  currentindex : Int

/-- `IcalExtractor.extractone(index)`. -/
def icsExtractone (s : IcsState) (index : Nat) :
    Bool × List Nat × List Nat × Nat :=
  if s.contents.length ≤ index then (false, [], [], 1)
  else
    let docdata := s.contents.getD index []
    let iseof := if s.currentindex ≥ (s.contents.length : Int) - 1 then
      RclExecM.eofnext else RclExecM.noteof
    (true, docdata, natToDecBytes index, iseof)

/-- `IcalExtractor.getipath(params)`. -/
def icsGetipath (s : IcsState) (ipath : List Nat) :
    Bool × List Nat × List Nat × Nat :=
  if ipath = [] then icsExtractone s 0
  else
    match parsePyInt ipath with
    | none => (false, [], [], 1)
    | some i => icsExtractone s i

/-- `IcalExtractor.getnext(params)`. -/
def icsGetnext (s : IcsState) :
    (Bool × List Nat × List Nat × Nat) × IcsState :=
  if s.currentindex = -1 then
    if s.contents.length = 0 then
      ((true, [], [], RclExecM.eofnext), { s with currentindex := 0 })
    else ((true, [], [], RclExecM.noteof), { s with currentindex := 0 })
  else if (s.contents.length : Int) ≤ s.currentindex then
    ((false, [], [], RclExecM.eofnow), s)
  else
    (icsExtractone s s.currentindex.toNat, { s with currentindex := s.currentindex + 1 })

/-! ## `rclzip.py` -/

/-- The `em.rclog` diagnostics of `ZipExtractor.extractone`. -/
inductive ZipLog where
  | tooBig (ipath : String) (size : Nat)
deriving DecidableEq

/-- The per-open session state of `ZipExtractor`: the zip catalog maps each
member name to its declared size and data, `maxmembersize` is
`self.em.maxmembersize`. -/
structure ZipState where
  members : List (String × Nat × List Nat)
  maxmembersize : Nat
  currentindex : Int

/-- `ZipExtractor.extractone(ipath)`: an unknown name raises inside the
`try` and yields a failure; a member above the size ceiling is logged and
kept as empty content (the data is never read); the eof slot and the
eager close depend on the cursor against `len(self.zip.namelist())`.
Returns `((ok, docdata, ipath, iseof), logs, closedEagerly)`. -/
def zipExtractone (s : ZipState) (ipath : String) :
    (Bool × List Nat × String × Nat) × List ZipLog × Bool :=
  let body := match s.members.lookup ipath with
    | none => (false, [], [])
    | some sd =>
      if s.maxmembersize < sd.1 then (true, [], [ZipLog.tooBig ipath sd.1])
      else (true, sd.2, [])
  let last := s.currentindex ≥ (s.members.length : Int) - 1
  let iseof := if last then RclExecM.eofnext else RclExecM.noteof
  ((body.1, body.2.1, ipath, iseof), body.2.2, last)

/-! ## `rclkar.py` -/

/-- Python `str.lower()` restricted to ASCII, evaluable by the kernel. -/
def pyLower (s : String) : String := String.mk (s.data.map Char.toLower)

/-- The `acceptnullencodings` set of `KarTextExtractor`. -/
def acceptNullEncodings : List String :=
  ["csucs4", "csunicode", "csunicode11", "iso-10646-ucs-2", "iso-10646-ucs-4",
   "u16", "u32", "ucs-2", "ucs-2-internal", "ucs-2-swapped", "ucs-2be",
   "ucs-2le", "ucs-4", "ucs-4-internal", "ucs-4-swapped", "ucs-4be",
   "ucs-4le", "unicode-1-1", "unicodebig", "unicodelittle", "utf-16",
   "utf-16be", "utf-16le", "utf-32", "utf-32be", "utf-32le", "utf16",
   "utf32", "utf_16", "utf_16_be", "utf_16_le", "utf_32", "utf_32_be",
   "utf_32_le"]

/-- A byte of the `[a-zA-Z]` class. -/
def isAlphaByte (b : Nat) : Bool :=
  (65 ≤ b ∧ b ≤ 90) ∨ (97 ≤ b ∧ b ≤ 122)

/-- Attempt to match `rb"\(([^\)]+)\)\.[a-zA-Z]+$"` at the start of `s`
(where `s` runs to the end of the file name), returning group 1. -/
def karFnTry (s : List Nat) : Option (List Nat) :=
  match s with
  | [] => none
  | x :: rest =>
    if x = 40 then
      let tok := rest.takeWhile (fun b => b ≠ 41)
      if tok = [] then none
      else
        match rest.drop tok.length with
        | 41 :: 46 :: tail =>
          if tail ≠ [] ∧ tail.all isAlphaByte then some tok else none
        | _ => none
    else none

/-- `KarTextExtractor.encodingfromfilename(fn)`: the parenthesised charset
token right before the extension, when the file name (a bytes object) has
one; the source returns `m.group(1)` (bytes) on a match and `""` (str)
otherwise. -/
def karEncodingFromFilename : List Nat → Option (List Nat)
  | [] => none
  | x :: xs =>
    match karFnTry (x :: xs) with
    | some tok => some tok
    | none => karEncodingFromFilename xs

/-- The file-name charset check at the head of `html_text` (lines 209-214):
`self.encoding = self.encodingfromfilename(filename)` followed by
`codecs.lookup(self.encoding)` under a bare `except` that resets the
encoding to `""`.  The hint, when present, is a `bytes` object, and
`codecs.lookup` accepts only `str` in Python 3, so it raises `TypeError`
before consulting any codec table and the hint is discarded. -/
def karFilenameCheck (fn : List Nat) : PyVal :=
  let enc : PyVal := match karEncodingFromFilename fn with
    | some g => .bytes g
    | none => .str ""
  if pyTruthy enc then
    match enc with
    | .bytes _ => .str ""
    | .str st => .str st
  else enc

/-- The process environment `KarTextExtractor` consults: `chardet`
availability and verdicts (confidence embedded as a rational), the optional
stopword classifier of `rcllatinclass`, and the locale fallback encoding
computed in `__init__`. -/
structure KarEnv where
  hasChardet : Bool
  detect : List Nat → String × ℚ
  classifier : Option (List Nat → String × String × Nat)
  defaultencoding : String

/-- `KarTextExtractor.chardet_detect(text)`: the stopword classifier may
override an `iso-8859-2` verdict when it finds a non-zero match count. -/
def karChardetDetect (env : KarEnv) (text : List Nat) : String × ℚ :=
  let r := env.detect text
  if pyLower r.1 = "iso-8859-2" then
    match env.classifier with
    | none => r
    | some cls =>
      let c := cls text
      if 0 < c.2.2 then (c.2.1, 1) else r
  else r

/-- The encoding decision of `html_text` (lines 207-214 and 276-297): file
name check, then the null-tolerant and null-truncated chardet passes, then
the locale fallback.  Returns the final `self.encoding` together with the
lyrics buffer actually kept (the un-truncated one when a null-bearing wide
encoding is accepted; the parallel reassignment of the title/author fields
does not affect the encoding and is not tracked). -/
def karDecideEncoding (env : KarEnv) (fn : List Nat) (hadnulls : Bool)
    (lyrics lyricsN : List Nat) : PyVal × List Nat :=
  let enc0 := karFilenameCheck fn
  let encLyr :=
    if enc0 = .str "" ∧ env.hasChardet then
      let a :=
        if hadnulls then
          let r := karChardetDetect env lyricsN
          if (6 / 10 : ℚ) < r.2 ∧ pyLower r.1 ∈ acceptNullEncodings then
            (PyVal.str r.1, lyricsN)
          else (enc0, lyrics)
        else (enc0, lyrics)
      if a.1 = .str "" then
        let r := karChardetDetect env lyrics
        if (6 / 10 : ℚ) < r.2 then (PyVal.str r.1, a.2) else a
      else a
    else (enc0, lyrics)
  if encLyr.1 = .str "" then (.str env.defaultencoding, encLyr.2) else encLyr

/-! ## Session iteration helpers -/

/-- The session state after `n` calls of `step`. -/
def stepState {σ R : Type} (step : σ → R × σ) : Nat → σ → σ
  | 0, s => s
  | n + 1, s => stepState step n (step s).2

/-- The result of the `n + 1`-st call of `step` (zero-based `n`). -/
def stepTrace {σ R : Type} (step : σ → R × σ) (n : Nat) (s : σ) : R :=
  (step (stepState step n s)).1

theorem stepState_succ_back {σ R : Type} (step : σ → R × σ) (n : Nat) (s : σ) :
    stepState step (n + 1) s = (step (stepState step n s)).2 := by
  induction n generalizing s with
  | zero => rfl
  | succ m ih =>
    show stepState step (m + 1) (step s).2 = _
    rw [ih (step s).2]
    rfl

/-! ## Claim theorems -/

/-- Concrete container fixtures used by witnesses and counterexamples. -/
def encOnlyLib : ChmLib where
  loadOk := true
  topics := none
  home := []
  title := .bytes []
  files := []
  parseEvents := fun _ => []
  pydecode := fun _ _ => ""
  pyencode := fun _ s => asciiBytes s
  knownCodec := fun _ => true

/-- C9 — `ZipExtractor.extractone` on a member whose declared size exceeds
`maxmembersize`: the call succeeds with empty content and a logged warning,
whatever the member's actual data is (in particular the result does not
depend on the data, i.e. the member is never read), and it never raises. -/
theorem claim_C9_zip_oversized (s : ZipState) (ipath : String) (size : Nat)
    (data : List Nat) (hmem : s.members.lookup ipath = some (size, data))
    (hbig : s.maxmembersize < size) :
    zipExtractone s ipath =
      ((true, [], ipath,
        if s.currentindex ≥ (s.members.length : Int) - 1 then RclExecM.eofnext
        else RclExecM.noteof),
       [ZipLog.tooBig ipath size],
       decide (s.currentindex ≥ (s.members.length : Int) - 1)) := by
  unfold zipExtractone
  rw [hmem]
  simp [hbig]

/-- Witness for C9 at a concrete archive: one 100-byte member against a
10-byte ceiling yields success, empty content and the warning. -/
theorem claim_C9_witness :
    zipExtractone
      { members := [("big.iso", 100, [7, 7, 7])], maxmembersize := 10,
        currentindex := -1 } "big.iso" =
      ((true, [], "big.iso",
        if (-1 : Int) ≥ ((1 : Nat) : Int) - 1 then RclExecM.eofnext
        else RclExecM.noteof),
       [ZipLog.tooBig "big.iso" 100],
       decide ((-1 : Int) ≥ ((1 : Nat) : Int) - 1)) :=
  claim_C9_zip_oversized
    { members := [("big.iso", 100, [7, 7, 7])], maxmembersize := 10,
      currentindex := -1 } "big.iso" 100 [7, 7, 7] (by decide) (by decide)

theorem getfile_truthy_bytes (lib : ChmLib) (p : List Nat)
    (h : pyTruthy (getfile lib p) = true) :
    ∃ b, b ≠ [] ∧ getfile lib p = .bytes b := by
  unfold getfile at h ⊢
  cases hl : lib.files.lookup p with
  | none => rw [hl] at h; simp [pyTruthy] at h
  | some rd =>
    obtain ⟨res, doc⟩ := rd
    rw [hl] at h
    dsimp only at h
    by_cases hres : res = 0
    · simp [hres, pyTruthy] at h
    · refine ⟨doc, ?_, by simp [hres]⟩
      simpa [hres, pyTruthy] using h

theorem chmOpenNoTopics_no_raise (lib : ChmLib) (catenate : Bool)
    (hk : ∀ cs, lib.knownCodec cs = true) :
    chmOpenNoTopics lib catenate ≠ .error () := by
  unfold chmOpenNoTopics
  split
  · simp
  · split
    all_goals
      dsimp only
      split
      · simp
      · rename_i hv
        obtain ⟨b, hbne, hb⟩ := getfile_truthy_bytes lib _ (by simpa using hv)
        rw [hb]
        simp [fixencoding, hk]

theorem fixencoding_bytes_iff (lib : ChmLib) (b : List Nat) :
    (fixencoding lib (.bytes b)).isOk = true ↔
      lib.knownCodec (declaredCharset b) = true := by
  unfold fixencoding
  dsimp only
  by_cases hk : lib.knownCodec (declaredCharset b) = true
  · rw [if_pos hk]
    exact iff_of_true rfl hk
  · rw [if_neg hk]
    exact iff_of_false (by decide) hk

/-- C10 (amended) — `rclCHM.fixencoding` raises on every `str` argument (the
`charset` variable it returns is assigned only inside the bytes branch); on
bytes it succeeds exactly when the declared (or fallback `cp1252`) charset
is a registered codec, since `text.decode(charset, errors=\x22replace\x22)`
raises `LookupError` for an unregistered token before any error handling.
At every call site of `rclchm.py` the argument is a nonempty bytes object —
`getfile` yields bytes whenever its result is truthy — so the `str` branch
is unreachable, and whenever every charset token resolves, `openfile` (both
branches) never lets an error escape. -/
theorem claim_C10_amended :
    (∀ (lib : ChmLib) (s : String), fixencoding lib (.str s) = .error ()) ∧
    (∀ (lib : ChmLib) (b : List Nat),
      (fixencoding lib (.bytes b)).isOk = true ↔
        lib.knownCodec (declaredCharset b) = true) ∧
    (∀ (lib : ChmLib) (p : List Nat), pyTruthy (getfile lib p) = true →
      ∃ b, b ≠ [] ∧ getfile lib p = .bytes b) ∧
    (∀ (lib : ChmLib) (catenate : Bool), (∀ cs, lib.knownCodec cs = true) →
      chmOpenfile lib catenate ≠ .error ()) := by
  refine ⟨fun _ _ => rfl, fixencoding_bytes_iff, getfile_truthy_bytes, ?_⟩
  intro lib catenate hk
  unfold chmOpenfile
  split
  · simp
  · cases htop : lib.topics with
    | some t =>
      simp only
      split
      · simp [fixencoding, hk]
      · exact chmOpenNoTopics_no_raise lib catenate hk
    | none => exact chmOpenNoTopics_no_raise lib catenate hk

theorem karFnTry_ne_nil (s : List Nat) (g : List Nat)
    (h : karFnTry s = some g) : g ≠ [] := by
  unfold karFnTry at h
  cases s with
  | nil => simp at h
  | cons x xs =>
    simp only at h
    split at h
    · split at h
      · simp at h
      · rename_i htok
        split at h
        · split at h
          · simp only [Option.some.injEq] at h
            subst h
            exact htok
          · simp at h
        · simp at h
    · simp at h

theorem karEncodingFromFilename_ne_nil (fn g : List Nat)
    (h : karEncodingFromFilename fn = some g) : g ≠ [] := by
  induction fn with
  | nil => simp [karEncodingFromFilename] at h
  | cons x xs ih =>
    unfold karEncodingFromFilename at h
    split at h
    · rename_i htry
      simp only [Option.some.injEq] at h
      subst h
      exact karFnTry_ne_nil _ _ htry
    · exact ih h

/-- The chardet environment of the C8 failing input: the statistical
detector would classify the lyrics as UTF-8 with high confidence. -/
def c8env : KarEnv where
  hasChardet := true
  detect := fun _ => ("utf-8", 99 / 100)
  classifier := none
  defaultencoding := "cp1252"

/-- C8 — the file-name charset hint of `rclkar.py` can never be applied: the
hint extracted by `encodingfromfilename` is a bytes object, `codecs.lookup`
only accepts `str` and raises `TypeError`, and the bare `except` resets the
encoding to `""` (first conjunct: the post-check encoding is the empty
string for every file name).  At the failing input — file name
`b"song (cp1252).kar"`, whose hint `cp1252` is present and well-formed — the
statistical detector is consulted after all and its UTF-8 verdict is
applied, contradicting the claim that the hint overrides the detector. -/
theorem claim_C8_filename_hint_discarded :
    (∀ fn : List Nat, karFilenameCheck fn = .str "") ∧
    karEncodingFromFilename (asciiBytes "song (cp1252).kar") =
      some (asciiBytes "cp1252") ∧
    (karDecideEncoding c8env (asciiBytes "song (cp1252).kar") false
      (asciiBytes "la la la") (asciiBytes "la la la")).1 = .str "utf-8" := by
  have h1 : ∀ fn : List Nat, karFilenameCheck fn = .str "" := by
    intro fn
    unfold karFilenameCheck
    cases hm : karEncodingFromFilename fn with
    | none => simp [pyTruthy]
    | some g =>
      have hg := karEncodingFromFilename_ne_nil fn g hm
      simp [pyTruthy, hg]
  refine ⟨h1, by decide, ?_⟩
  have hr : ((6 : ℚ) / 10) < 99 / 100 := by norm_num
  have hs : pyLower "utf-8" ≠ "iso-8859-2" := by decide
  simp [karDecideEncoding, karChardetDetect, c8env, h1, hr, hs]

theorem decDigitsF_digits (fuel n : Nat) :
    ∀ b ∈ decDigitsF fuel n, 48 ≤ b ∧ b ≤ 57 := by
  induction fuel generalizing n with
  | zero => simp [decDigitsF]
  | succ f ih =>
    unfold decDigitsF
    split
    · rename_i h10
      intro b hb
      simp at hb
      omega
    · rename_i h10
      intro b hb
      rcases List.mem_append.1 hb with h | h
      · exact ih (n / 10) b h
      · simp at h
        have := Nat.mod_lt n (show 0 < 10 by omega)
        omega

theorem decDigitsF_ne_nil (fuel n : Nat) (h : n < fuel) :
    decDigitsF fuel n ≠ [] := by
  cases fuel with
  | zero => omega
  | succ f =>
    unfold decDigitsF
    split
    · simp
    · simp

theorem foldl_decDigitsF (fuel n : Nat) (h : n < fuel) :
    (decDigitsF fuel n).foldl (fun a c => 10 * a + (c - 48)) 0 = n := by
  induction fuel generalizing n with
  | zero => omega
  | succ f ih =>
    unfold decDigitsF
    split
    · rename_i h10
      simp only [List.foldl_cons, List.foldl_nil]
      omega
    · rename_i h10
      push_neg at h10
      rw [List.foldl_append]
      have hdiv : n / 10 < f := by
        have h1 : n / 10 < n := Nat.div_lt_self (by omega) (by omega)
        omega
      rw [ih (n / 10) hdiv]
      simp
      have := Nat.div_add_mod n 10
      have := Nat.mod_lt n (show 0 < 10 by omega)
      omega

/-- Python `int(str(i)) == i`: the decimal address written by the extractors
parses back to the index. -/
theorem parsePyInt_natToDecBytes (n : Nat) :
    parsePyInt (natToDecBytes n) = some n := by
  unfold parsePyInt natToDecBytes
  rw [if_pos ?_]
  · rw [foldl_decDigitsF (n + 1) n (by omega)]
  · refine ⟨decDigitsF_ne_nil (n + 1) n (by omega), ?_⟩
    rw [List.all_eq_true]
    intro b hb
    have := decDigitsF_digits (n + 1) n b hb
    simp
    omega

/-- A two-document chm session fresh from `open` (cursor still at the
synthetic-document sentinel). -/
def c2state : ChmState where
  lib := { encOnlyLib with
    files := [(asciiBytes "/a", (1, [65])), (asciiBytes "/b", (1, [66]))] }
  contents := [asciiBytes "/a", asciiBytes "/b"]
  currentindex := -1
  catenate := false
  charset := "cp1252"
  closed := false

/-- Counterexample to C2: in a fresh two-document session, fetching the
*last* address by `getipath` reports `noteof`, not the `lastItem` state the
claim requires; and with the cursor past the end, fetching the *first*
address reports `lastItem`.  The eof slot tracks the cursor, not the
address. -/
theorem claim_C2_counterexample :
    c2state.contents.getLastD [] = asciiBytes "/b" ∧
    (chmGetipath c2state (asciiBytes "/b")).2.2.2 = RclExecM.noteof ∧
    (chmGetipath { c2state with currentindex := 5 }
      (asciiBytes "/a")).2.2.2 = RclExecM.eofnext ∧
    RclExecM.noteof ≠ RclExecM.eofnext := by
  refine ⟨by decide, by decide, by decide, by decide⟩

/-- The eof slot of `extractone` depends only on the cursor and the contents
length, not on the path or the resolution outcome. -/
theorem chmExtractone_eof (s : ChmState) (path : PyVal) (norclaptag : Bool) :
    (chmExtractone s path norclaptag).2.2.2 =
      (if s.currentindex ≥ (s.contents.length : Int) - 1 then
        RclExecM.eofnext else RclExecM.noteof) := by
  unfold chmExtractone
  dsimp only
  cases List.lookup (match path with
    | .str st => s.lib.pyencode s.charset st
    | .bytes b => b) s.lib.files with
  | none => rfl
  | some rd =>
    obtain ⟨res, doc⟩ := rd
    dsimp only
    by_cases h : 0 < res
    · rw [if_pos h]
    · rw [if_neg h]

/-- The ipath slot of `extractone` on a bytes path is that path. -/
theorem chmExtractone_ipath (s : ChmState) (b : List Nat) (norclaptag : Bool) :
    (chmExtractone s (.bytes b) norclaptag).2.2.1 = b := by
  unfold chmExtractone
  dsimp only
  cases List.lookup b s.lib.files with
  | none => rfl
  | some rd =>
    obtain ⟨res, doc⟩ := rd
    dsimp only
    by_cases h : 0 < res
    · rw [if_pos h]
    · rw [if_neg h]

/-- C2 (amended) — for every open session and every address in ContentIndex,
`getByAddress` signals `lastItem` exactly when the session cursor already
sits at or past the penultimate index (`currentindex ≥ |ContentIndex| - 1`),
independently of which address is fetched; this holds for the chm and the
GNU-info extractors. -/
theorem claim_C2_amended :
    (∀ (s : ChmState) (a : List Nat), a ∈ s.contents →
      ((chmGetipath s a).2.2.2 = RclExecM.eofnext ↔
        (s.contents.length : Int) - 1 ≤ s.currentindex)) ∧
    (∀ (s : InfoState) (i : Nat), i < s.contents.length →
      ((infoGetipath s (natToDecBytes i)).2.2.2 = RclExecM.eofnext ↔
        (s.contents.length : Int) - 1 ≤ s.currentindex)) := by
  constructor
  · intro s a _
    rw [show chmGetipath s a = chmExtractone s (.bytes a) false from rfl,
      chmExtractone_eof]
    split
    · rename_i hc
      exact iff_of_true rfl (by omega)
    · rename_i hc
      exact iff_of_false (by decide) (by omega)
  · intro s i hi
    unfold infoGetipath
    rw [parsePyInt_natToDecBytes]
    show (infoExtractone s i).2.2.2 = _ ↔ _
    unfold infoExtractone
    dsimp only
    rw [if_neg (by omega)]
    dsimp only
    split
    · rename_i hc
      exact iff_of_true rfl (by omega)
    · rename_i hc
      exact iff_of_false (by decide) (by omega)

/-- Witness for C2 (amended) at the concrete two-document session. -/
theorem claim_C2_witness :
    ((chmGetipath c2state (asciiBytes "/b")).2.2.2 = RclExecM.eofnext ↔
      ((c2state.contents.length : Int) - 1 ≤ c2state.currentindex)) ∧
    ((infoGetipath { contents := [([78], [79])],
                     currentindex := -1,
                     esc := id } (natToDecBytes 0)).2.2.2 = RclExecM.eofnext ↔
      (((1 : Nat) : Int) - 1 ≤ (-1 : Int))) :=
  ⟨claim_C2_amended.1 c2state (asciiBytes "/b") (by decide),
   claim_C2_amended.2 { contents := [([78], [79])],
                        currentindex := -1,
                        esc := id } 0 (by decide)⟩

theorem dedupFold_props (l : List (List Nat)) :
    ∀ acc : List (List Nat), acc.Nodup →
      (l.foldl (fun ct t => if t ∈ ct then ct else ct ++ [t]) acc).Nodup ∧
      (∀ x, x ∈ l.foldl (fun ct t => if t ∈ ct then ct else ct ++ [t]) acc ↔
        x ∈ acc ∨ x ∈ l) ∧
      (l.foldl (fun ct t => if t ∈ ct then ct else ct ++ [t]) acc).Sublist
        (acc ++ l) := by
  induction l with
  | nil => intro acc hacc; exact ⟨hacc, by simp, by simp⟩
  | cons t rest ih =>
    intro acc hacc
    simp only [List.foldl_cons]
    by_cases ht : t ∈ acc
    · rw [if_pos ht]
      obtain ⟨h1, h2, h3⟩ := ih acc hacc
      refine ⟨h1, ?_, ?_⟩
      · intro x
        rw [h2 x]
        constructor
        · rintro (h | h)
          · exact Or.inl h
          · exact Or.inr (by simp [h])
        · rintro (h | h)
          · exact Or.inl h
          · rcases List.mem_cons.1 h with h | h
            · exact Or.inl (h ▸ ht)
            · exact Or.inr h
      · exact h3.trans (List.Sublist.append_left (List.sublist_cons_self t rest) acc)
    · rw [if_neg ht]
      have hacc1 : (acc ++ [t]).Nodup := by
        rw [List.nodup_append]
        exact ⟨hacc, List.nodup_singleton t, by simpa using ht⟩
      obtain ⟨h1, h2, h3⟩ := ih (acc ++ [t]) hacc1
      refine ⟨h1, ?_, ?_⟩
      · intro x
        rw [h2 x]
        simp [or_assoc]
      · have := h3
        rwa [List.append_assoc, List.singleton_append] at this

/-- `dedupList` keeps exactly the members of its input, without duplicates,
in a subsequence (hence first-occurrence) order; concretely
`[A, B, B, C]` becomes `[A, B, C]`. -/
theorem dedupList_props (l : List (List Nat)) :
    (dedupList l).Nodup ∧ (∀ x, x ∈ dedupList l ↔ x ∈ l) ∧
      (dedupList l).Sublist l := by
  obtain ⟨h1, h2, h3⟩ := dedupFold_props l [] List.nodup_nil
  exact ⟨h1, fun x => by simpa using h2 x, by simpa using h3⟩

/-- After `m + 1` `getnext` calls (with `m ≤ |contents|`) on a fresh
non-catenate chm session, the cursor is at `m` and the container has been
closed exactly if the stream is done. -/
theorem chmStateAfter (lib : ChmLib) (cts : List (List Nat)) (cs : String)
    (m : Nat) (hm : m ≤ cts.length) :
    stepState chmGetnext (m + 1) ⟨lib, cts, -1, false, cs, false⟩ =
      ⟨lib, cts, (m : Int), false, cs, decide (m = cts.length)⟩ := by
  induction m with
  | zero =>
    show (chmGetnext _).2 = _
    unfold chmGetnext
    rw [if_neg (by simp)]
    rw [if_pos rfl]
    by_cases h0 : cts.length = 0
    · rw [if_pos h0]
      dsimp only
      congr 1
      simp [h0]
    · rw [if_neg h0]
      dsimp only
      congr 1
      simp [eq_comm, h0]
  | succ m ih =>
    have hm1 : m < cts.length := by omega
    rw [stepState_succ_back, ih (by omega)]
    show (chmGetnext _).2 = _
    unfold chmGetnext
    dsimp only
    rw [if_neg (by simp)]
    rw [if_neg (show ¬((m : Int) = -1) by omega)]
    rw [if_neg (show ¬((cts.length : Int) ≤ (m : Int)) by omega)]
    dsimp only
    rw [chmExtractone_eof]
    dsimp only
    by_cases hlast : m + 1 = cts.length
    · have hcond : (m : Int) ≥ (cts.length : Int) - 1 := by omega
      rw [if_pos hcond]
      congr 1
      · simp [RclExecM.eofnext, hlast]
    · have hcond : ¬((m : Int) ≥ (cts.length : Int) - 1) := by omega
      rw [if_neg hcond]
      have h1 : ¬(m = cts.length) := by omega
      congr 1
      · simp [RclExecM.noteof, RclExecM.eofnext, RclExecM.eofnow, h1, hlast]

/-- After the stream is exhausted the chm session state no longer changes. -/
theorem chmStateTail (lib : ChmLib) (cts : List (List Nat)) (cs : String)
    (j : Nat) :
    stepState chmGetnext (cts.length + 1 + j) ⟨lib, cts, -1, false, cs, false⟩ =
      ⟨lib, cts, (cts.length : Int), false, cs, true⟩ := by
  induction j with
  | zero =>
    have := chmStateAfter lib cts cs cts.length (le_refl _)
    simpa using this
  | succ j ih =>
    have hstep : cts.length + 1 + (j + 1) = (cts.length + 1 + j) + 1 := by omega
    rw [hstep, stepState_succ_back, ih]
    unfold chmGetnext
    rw [if_neg (by simp)]
    rw [if_neg (by simp)]
    rw [if_pos (by simp)]

/-- After `m + 1` `getnext` calls (with `m ≤ |contents|`) on a fresh info
session, the cursor is at `m`. -/
theorem infoStateAfter (cts : List (List Nat × List Nat))
    (esc : List Nat → List Nat) (m : Nat) (hm : m ≤ cts.length) :
    stepState infoGetnext (m + 1) ⟨cts, -1, esc⟩ = ⟨cts, (m : Int), esc⟩ := by
  induction m with
  | zero =>
    show (infoGetnext _).2 = _
    unfold infoGetnext
    rw [if_pos rfl]
    by_cases h0 : cts.length = 0
    · rw [if_pos h0]
      rfl
    · rw [if_neg h0]
      rfl
  | succ m ih =>
    have hm1 : m < cts.length := by omega
    rw [stepState_succ_back, ih (by omega)]
    unfold infoGetnext
    dsimp only
    rw [if_neg (show ¬((m : Int) = -1) by omega)]
    rw [if_neg (show ¬((cts.length : Int) ≤ (m : Int)) by omega)]
    dsimp only
    congr 1

/-- After the stream is exhausted the info session state no longer changes. -/
theorem infoStateTail (cts : List (List Nat × List Nat))
    (esc : List Nat → List Nat) (j : Nat) :
    stepState infoGetnext (cts.length + 1 + j) ⟨cts, -1, esc⟩ =
      ⟨cts, (cts.length : Int), esc⟩ := by
  induction j with
  | zero => simpa using infoStateAfter cts esc cts.length (le_refl _)
  | succ j ih =>
    have hstep : cts.length + 1 + (j + 1) = (cts.length + 1 + j) + 1 := by omega
    rw [hstep, stepState_succ_back, ih]
    unfold infoGetnext
    rw [if_neg (by simp)]
    rw [if_pos (by simp)]

/-- After `m + 1` `getnext` calls (with `m ≤ |contents|`) on a fresh ics
session, the cursor is at `m`. -/
theorem icsStateAfter (cts : List (List Nat)) (m : Nat) (hm : m ≤ cts.length) :
    stepState icsGetnext (m + 1) ⟨cts, -1⟩ = ⟨cts, (m : Int)⟩ := by
  induction m with
  | zero =>
    show (icsGetnext _).2 = _
    unfold icsGetnext
    rw [if_pos rfl]
    by_cases h0 : cts.length = 0
    · rw [if_pos h0]
      rfl
    · rw [if_neg h0]
      rfl
  | succ m ih =>
    have hm1 : m < cts.length := by omega
    rw [stepState_succ_back, ih (by omega)]
    unfold icsGetnext
    dsimp only
    rw [if_neg (show ¬((m : Int) = -1) by omega)]
    rw [if_neg (show ¬((cts.length : Int) ≤ (m : Int)) by omega)]
    dsimp only
    congr 1

/-- After the stream is exhausted the ics session state no longer changes. -/
theorem icsStateTail (cts : List (List Nat)) (j : Nat) :
    stepState icsGetnext (cts.length + 1 + j) ⟨cts, -1⟩ =
      ⟨cts, (cts.length : Int)⟩ := by
  induction j with
  | zero => simpa using icsStateAfter cts cts.length (le_refl _)
  | succ j ih =>
    have hstep : cts.length + 1 + (j + 1) = (cts.length + 1 + j) + 1 := by omega
    rw [hstep, stepState_succ_back, ih]
    unfold icsGetnext
    rw [if_neg (by simp)]
    rw [if_pos (by simp)]

theorem chmTraceProps (lib : ChmLib) (cts : List (List Nat)) (cs : String) :
    stepTrace chmGetnext 0 ⟨lib, cts, -1, false, cs, false⟩ =
      (true, [], [],
        if cts.length = 0 then RclExecM.eofnext else RclExecM.noteof) ∧
    (∀ i, i < cts.length →
      (stepTrace chmGetnext (i + 1) ⟨lib, cts, -1, false, cs, false⟩).2.2.1 =
        cts.getD i [] ∧
      ((stepTrace chmGetnext (i + 1) ⟨lib, cts, -1, false, cs, false⟩).2.2.2 =
          RclExecM.eofnext ↔ i = cts.length - 1)) ∧
    (∀ k, stepTrace chmGetnext (cts.length + 1 + k)
        ⟨lib, cts, -1, false, cs, false⟩ = (false, [], [], RclExecM.eofnow)) := by
  refine ⟨?_, ?_, ?_⟩
  · show (chmGetnext ⟨lib, cts, -1, false, cs, false⟩).1 = _
    unfold chmGetnext
    rw [if_neg (by simp)]
    rw [if_pos rfl]
    by_cases h0 : cts.length = 0
    · rw [if_pos h0, if_pos h0]
    · rw [if_neg h0, if_neg h0]
  · intro i hi
    have hst := chmStateAfter lib cts cs i (le_of_lt hi)
    unfold stepTrace
    rw [hst]
    unfold chmGetnext
    dsimp only
    rw [if_neg (by simp)]
    rw [if_neg (show ¬((i : Int) = -1) by omega)]
    rw [if_neg (show ¬((cts.length : Int) ≤ (i : Int)) by omega)]
    dsimp only
    constructor
    · rw [show ((i : Int)).toNat = i from Int.toNat_natCast i]
      exact chmExtractone_ipath _ _ _
    · rw [chmExtractone_eof]
      dsimp only
      by_cases hlast : i = cts.length - 1
      · rw [if_pos (by omega)]
        exact iff_of_true rfl hlast
      · rw [if_neg (by omega)]
        exact iff_of_false (by decide) hlast
  · intro k
    unfold stepTrace
    rw [chmStateTail]
    unfold chmGetnext
    dsimp only
    rw [if_neg (by simp)]
    rw [if_neg (show ¬((cts.length : Int) = -1) by omega)]
    rw [if_pos (le_refl _)]

theorem infoTraceProps (cts : List (List Nat × List Nat))
    (esc : List Nat → List Nat) :
    stepTrace infoGetnext 0 ⟨cts, -1, esc⟩ =
      (true, [], [],
        if cts.length = 0 then RclExecM.eofnext else RclExecM.noteof) ∧
    (∀ i, i < cts.length →
      (stepTrace infoGetnext (i + 1) ⟨cts, -1, esc⟩).1 = true ∧
      (stepTrace infoGetnext (i + 1) ⟨cts, -1, esc⟩).2.2.1 = natToDecBytes i ∧
      ((stepTrace infoGetnext (i + 1) ⟨cts, -1, esc⟩).2.2.2 =
          RclExecM.eofnext ↔ i = cts.length - 1)) ∧
    (∀ k, stepTrace infoGetnext (cts.length + 1 + k) ⟨cts, -1, esc⟩ =
      (false, [], [], RclExecM.eofnow)) := by
  refine ⟨?_, ?_, ?_⟩
  · show (infoGetnext ⟨cts, -1, esc⟩).1 = _
    unfold infoGetnext
    rw [if_pos rfl]
    by_cases h0 : cts.length = 0
    · rw [if_pos h0, if_pos h0]
    · rw [if_neg h0, if_neg h0]
  · intro i hi
    have hst := infoStateAfter cts esc i (le_of_lt hi)
    unfold stepTrace
    rw [hst]
    unfold infoGetnext
    dsimp only
    rw [if_neg (show ¬((i : Int) = -1) by omega)]
    rw [if_neg (show ¬((cts.length : Int) ≤ (i : Int)) by omega)]
    dsimp only
    rw [show ((i : Int)).toNat = i from Int.toNat_natCast i]
    unfold infoExtractone
    dsimp only
    rw [if_neg (by omega)]
    dsimp only
    refine ⟨rfl, rfl, ?_⟩
    by_cases hlast : i = cts.length - 1
    · rw [if_pos (by omega)]
      exact iff_of_true rfl hlast
    · rw [if_neg (by omega)]
      exact iff_of_false (by decide) hlast
  · intro k
    unfold stepTrace
    rw [infoStateTail]
    unfold infoGetnext
    dsimp only
    rw [if_neg (show ¬((cts.length : Int) = -1) by omega)]
    rw [if_pos (le_refl _)]

theorem icsTraceProps (cts : List (List Nat)) :
    stepTrace icsGetnext 0 ⟨cts, -1⟩ =
      (true, [], [],
        if cts.length = 0 then RclExecM.eofnext else RclExecM.noteof) ∧
    (∀ i, i < cts.length →
      stepTrace icsGetnext (i + 1) ⟨cts, -1⟩ =
        (true, cts.getD i [], natToDecBytes i,
          if i = cts.length - 1 then RclExecM.eofnext else RclExecM.noteof)) ∧
    (∀ k, stepTrace icsGetnext (cts.length + 1 + k) ⟨cts, -1⟩ =
      (false, [], [], RclExecM.eofnow)) := by
  refine ⟨?_, ?_, ?_⟩
  · show (icsGetnext ⟨cts, -1⟩).1 = _
    unfold icsGetnext
    rw [if_pos rfl]
    by_cases h0 : cts.length = 0
    · rw [if_pos h0, if_pos h0]
    · rw [if_neg h0, if_neg h0]
  · intro i hi
    have hst := icsStateAfter cts i (le_of_lt hi)
    unfold stepTrace
    rw [hst]
    unfold icsGetnext
    dsimp only
    rw [if_neg (show ¬((i : Int) = -1) by omega)]
    rw [if_neg (show ¬((cts.length : Int) ≤ (i : Int)) by omega)]
    dsimp only
    rw [show ((i : Int)).toNat = i from Int.toNat_natCast i]
    unfold icsExtractone
    dsimp only
    rw [if_neg (by omega)]
    by_cases hlast : i = cts.length - 1
    · rw [if_pos (by omega), if_pos hlast]
    · rw [if_neg (by omega), if_neg hlast]
  · intro k
    unfold stepTrace
    rw [icsStateTail]
    unfold icsGetnext
    dsimp only
    rw [if_neg (show ¬((cts.length : Int) = -1) by omega)]
    rw [if_pos (le_refl _)]

/-- C1 — on every freshly opened sequential (non-catenate) session of the
chm, GNU-info and ical extractors, the first `getnext` returns the synthetic
self-document (success, empty body, end-of-stream on that very call iff the
contents are empty); call `i + 1` serves contents entry `i` with its address
in the ipath slot and `lastItem` signalled exactly on the final entry; every
call past the end fails with `alreadyDone`; and the chm openfile
de-duplication keeps a duplicate-free subsequence (first-occurrence order)
of its input. -/
theorem claim_C1 :
    (∀ (lib : ChmLib) (cts : List (List Nat)) (cs : String),
      stepTrace chmGetnext 0 ⟨lib, cts, -1, false, cs, false⟩ =
        (true, [], [],
          if cts.length = 0 then RclExecM.eofnext else RclExecM.noteof) ∧
      (∀ i, i < cts.length →
        (stepTrace chmGetnext (i + 1) ⟨lib, cts, -1, false, cs, false⟩).2.2.1 =
          cts.getD i [] ∧
        ((stepTrace chmGetnext (i + 1) ⟨lib, cts, -1, false, cs, false⟩).2.2.2 =
            RclExecM.eofnext ↔ i = cts.length - 1)) ∧
      (∀ k, stepTrace chmGetnext (cts.length + 1 + k)
          ⟨lib, cts, -1, false, cs, false⟩ = (false, [], [], RclExecM.eofnow))) ∧
    (∀ (cts : List (List Nat × List Nat)) (esc : List Nat → List Nat),
      stepTrace infoGetnext 0 ⟨cts, -1, esc⟩ =
        (true, [], [],
          if cts.length = 0 then RclExecM.eofnext else RclExecM.noteof) ∧
      (∀ i, i < cts.length →
        (stepTrace infoGetnext (i + 1) ⟨cts, -1, esc⟩).1 = true ∧
        (stepTrace infoGetnext (i + 1) ⟨cts, -1, esc⟩).2.2.1 = natToDecBytes i ∧
        ((stepTrace infoGetnext (i + 1) ⟨cts, -1, esc⟩).2.2.2 =
            RclExecM.eofnext ↔ i = cts.length - 1)) ∧
      (∀ k, stepTrace infoGetnext (cts.length + 1 + k) ⟨cts, -1, esc⟩ =
        (false, [], [], RclExecM.eofnow))) ∧
    (∀ cts : List (List Nat),
      stepTrace icsGetnext 0 ⟨cts, -1⟩ =
        (true, [], [],
          if cts.length = 0 then RclExecM.eofnext else RclExecM.noteof) ∧
      (∀ i, i < cts.length →
        stepTrace icsGetnext (i + 1) ⟨cts, -1⟩ =
          (true, cts.getD i [], natToDecBytes i,
            if i = cts.length - 1 then RclExecM.eofnext else RclExecM.noteof)) ∧
      (∀ k, stepTrace icsGetnext (cts.length + 1 + k) ⟨cts, -1⟩ =
        (false, [], [], RclExecM.eofnow))) ∧
    (∀ l : List (List Nat), (dedupList l).Nodup ∧ (dedupList l).Sublist l) :=
  ⟨chmTraceProps, infoTraceProps, icsTraceProps,
    fun l => ⟨(dedupList_props l).1, (dedupList_props l).2.2⟩⟩

/-- Witness for C1 at a two-entry ical session: the second document call
serves entry 1 with end-of-stream, and the first call past the end fails. -/
theorem claim_C1_witness :
    (1 : Nat) < 2 ∧
    stepTrace icsGetnext 2 ⟨[[65], [66]], -1⟩ =
      (true, [66], natToDecBytes 1, RclExecM.eofnext) ∧
    stepTrace icsGetnext 3 ⟨[[65], [66]], -1⟩ =
      (false, [], [], RclExecM.eofnow) := by
  refine ⟨by decide, ?_, ?_⟩
  · have h := (claim_C1.2.2.1 [[65], [66]]).2.1 1 (by decide)
    simpa using h
  · have h := (claim_C1.2.2.1 [[65], [66]]).2.2 0
    simpa using h

/-- A container whose catalog is empty: no internal path resolves. -/
def noFilesLib : ChmLib where
  loadOk := true
  topics := none
  home := []
  title := .str ""
  files := []
  parseEvents := fun _ => []
  pydecode := fun _ b => String.mk (b.map Char.ofNat)
  pyencode := fun _ st => asciiBytes st
  knownCodec := fun _ => true

/-- A container resolving exactly the internal path `p.html`. -/
def c3lib : ChmLib where
  loadOk := true
  topics := none
  home := []
  title := .str ""
  files := [(asciiBytes "p.html", (1, asciiBytes "D"))]
  parseEvents := fun _ => []
  pydecode := fun _ b => String.mk (b.map Char.ofNat)
  pyencode := fun _ st => asciiBytes st
  knownCodec := fun _ => true

/-- The acceptance decision of `ChmTopicsParser.handle_starttag`, factored
out of `topicsStart`: `some lp` is the slash-prefixed path the handler
appends (before charset encoding), `none` means the record is dropped. -/
def topicsAccepted (lib : ChmLib) (charset : String)
    (tag : String) (attrs : List (String × String)) : Option String :=
  if tag ≠ "param" then none
  else
    let name := lastAttr "name" attrs
    let value := lastAttr "value" attrs
    if name ≠ "Local" ∨ value = "" then none
    else
      let value := pyUnquote value
      let ll := pySplitChar ':' value
      let localpath :=
        if ll.length = 1 then value
        else if ll.length = 4 ∧ ll.getLastD "" ≠ "" ∧ (ll.get? 1).getD "" ≠ ""
        then
          let lp := ll.getLastD ""
          if peekfile lib (.str lp) charset then lp else ""
        else ""
      if localpath.length ≠ 0 ∧ ¬localpath.data.contains '#' then
        some (if localpath.data.head? ≠ some '/' then "/" ++ localpath
              else localpath)
      else none

theorem topicsStart_accepted (lib : ChmLib) (charset : String)
    (cts : List (List Nat)) (tag : String) (attrs : List (String × String)) :
    topicsStart lib charset cts tag attrs =
      cts ++ ((topicsAccepted lib charset tag attrs).map
        (lib.pyencode charset)).toList := by
  unfold topicsStart topicsAccepted
  dsimp only
  split_ifs <;> simp

theorem topicsAccepted_gate (lib : ChmLib) (charset : String)
    (tag : String) (attrs : List (String × String))
    (h : topicsAccepted lib charset tag attrs ≠ none) :
    tag = "param" ∧ lastAttr "name" attrs = "Local" ∧
      lastAttr "value" attrs ≠ "" := by
  unfold topicsAccepted at h
  dsimp only at h
  by_cases h1 : tag ≠ "param"
  · rw [if_pos h1] at h
    exact absurd rfl h
  · rw [if_neg h1] at h
    by_cases h2 : lastAttr "name" attrs ≠ "Local" ∨ lastAttr "value" attrs = ""
    · rw [if_pos h2] at h
      exact absurd rfl h
    · push_neg at h1 h2
      exact ⟨h1, h2.1, h2.2⟩

theorem topicsAccepted_shape (lib : ChmLib) (charset : String)
    (tag : String) (attrs : List (String × String)) (lp : String)
    (h : topicsAccepted lib charset tag attrs = some lp) :
    ∃ q : String, q.length ≠ 0 ∧ q.data.contains '#' = false ∧
      (lp = q ∨ lp = "/" ++ q) ∧
      ((pySplitChar ':' (pyUnquote (lastAttr "value" attrs))).length = 1 ∧
         q = pyUnquote (lastAttr "value" attrs) ∨
       (pySplitChar ':' (pyUnquote (lastAttr "value" attrs))).length = 4 ∧
         q = (pySplitChar ':'
           (pyUnquote (lastAttr "value" attrs))).getLastD "" ∧
         ((pySplitChar ':'
           (pyUnquote (lastAttr "value" attrs))).get? 1).getD "" ≠ "" ∧
         peekfile lib (.str q) charset = true) := by
  unfold topicsAccepted at h
  dsimp only at h
  by_cases h1 : tag ≠ "param"
  · rw [if_pos h1] at h
    exact absurd h (by simp)
  · rw [if_neg h1] at h
    by_cases h2 : lastAttr "name" attrs ≠ "Local" ∨ lastAttr "value" attrs = ""
    · rw [if_pos h2] at h
      exact absurd h (by simp)
    · rw [if_neg h2] at h
      by_cases h3 :
          (pySplitChar ':' (pyUnquote (lastAttr "value" attrs))).length = 1
      · rw [if_pos h3] at h
        by_cases h4 : (pyUnquote (lastAttr "value" attrs)).length ≠ 0 ∧
            ¬(pyUnquote (lastAttr "value" attrs)).data.contains '#' = true
        · rw [if_pos h4] at h
          refine ⟨pyUnquote (lastAttr "value" attrs), h4.1,
            by simpa using h4.2, ?_, Or.inl ⟨h3, rfl⟩⟩
          rcases Option.some_inj.mp h with rfl
          by_cases h5 :
              (pyUnquote (lastAttr "value" attrs)).data.head? ≠ some '/'
          · rw [if_pos h5]
            exact Or.inr rfl
          · rw [if_neg h5]
            exact Or.inl rfl
        · rw [if_neg h4] at h
          exact absurd h (by simp)
      · rw [if_neg h3] at h
        by_cases h5 :
            (pySplitChar ':' (pyUnquote (lastAttr "value" attrs))).length
              = 4 ∧
            (pySplitChar ':'
              (pyUnquote (lastAttr "value" attrs))).getLastD "" ≠ "" ∧
            ((pySplitChar ':'
              (pyUnquote (lastAttr "value" attrs))).get? 1).getD "" ≠ ""
        · rw [if_pos h5] at h
          by_cases h6 : peekfile lib (.str ((pySplitChar ':'
              (pyUnquote (lastAttr "value" attrs))).getLastD "")) charset
                = true
          · rw [if_pos h6] at h
            by_cases h7 : ((pySplitChar ':'
                (pyUnquote (lastAttr "value" attrs))).getLastD "").length
                  ≠ 0 ∧
                ¬((pySplitChar ':'
                  (pyUnquote
                    (lastAttr "value" attrs))).getLastD "").data.contains '#'
                  = true
            · rw [if_pos h7] at h
              refine ⟨(pySplitChar ':'
                  (pyUnquote (lastAttr "value" attrs))).getLastD "",
                h7.1, by simpa using h7.2, ?_,
                Or.inr ⟨h5.1, rfl, h5.2.2, h6⟩⟩
              rcases Option.some_inj.mp h with rfl
              by_cases h8 : ((pySplitChar ':'
                  (pyUnquote
                    (lastAttr "value" attrs))).getLastD "").data.head?
                    ≠ some '/'
              · rw [if_pos h8]
                exact Or.inr rfl
              · rw [if_neg h8]
                exact Or.inl rfl
            · rw [if_neg h7] at h
              exact absurd h (by simp)
          · rw [if_neg h6] at h
            rw [if_neg (by decide)] at h
            exact absurd h (by simp)
        · rw [if_neg h5] at h
          rw [if_neg (by decide)] at h
          exact absurd h (by simp)

/-- Counterexample for C3: with an empty container catalog — so no path
whatsoever resolves — a plain colon-free `Local` value is still appended to
ContentIndex: the existence probe runs only in the compound four-field
form, not for plain paths. -/
theorem claim_C3_counterexample :
    topicsStart noFilesLib "utf-8" [] "param"
        [("name", "Local"), ("value", "x.html")] = [asciiBytes "/x.html"] ∧
    peekfile noFilesLib (.str "x.html") "utf-8" = false ∧
    peekfile noFilesLib (.str "/x.html") "utf-8" = false := by
  refine ⟨by decide, by decide, by decide⟩

/-- C3 (amended) — `handle_starttag` appends exactly the accepted candidate
(encoded), and a candidate is accepted only from a `param` record named
`Local` with non-empty value; every accepted path is fragment-free and comes
either from a plain colon-free value (kept with *no* existence probe) or
from a four-colon-field value whose interior file segment and final segment
are non-empty and whose final segment passes the existence probe. -/
theorem claim_C3_amended :
    (∀ (lib : ChmLib) (charset : String) (cts : List (List Nat))
        (tag : String) (attrs : List (String × String)),
      topicsStart lib charset cts tag attrs =
        cts ++ ((topicsAccepted lib charset tag attrs).map
          (lib.pyencode charset)).toList) ∧
    (∀ (lib : ChmLib) (charset : String) (tag : String)
        (attrs : List (String × String)),
      topicsAccepted lib charset tag attrs ≠ none →
      tag = "param" ∧ lastAttr "name" attrs = "Local" ∧
        lastAttr "value" attrs ≠ "") ∧
    (∀ (lib : ChmLib) (charset : String) (tag : String)
        (attrs : List (String × String)) (lp : String),
      topicsAccepted lib charset tag attrs = some lp →
      ∃ q : String, q.length ≠ 0 ∧ q.data.contains '#' = false ∧
        (lp = q ∨ lp = "/" ++ q) ∧
        ((pySplitChar ':' (pyUnquote (lastAttr "value" attrs))).length = 1 ∧
           q = pyUnquote (lastAttr "value" attrs) ∨
         (pySplitChar ':' (pyUnquote (lastAttr "value" attrs))).length = 4 ∧
           q = (pySplitChar ':'
             (pyUnquote (lastAttr "value" attrs))).getLastD "" ∧
           ((pySplitChar ':'
             (pyUnquote (lastAttr "value" attrs))).get? 1).getD "" ≠ "" ∧
           peekfile lib (.str q) charset = true)) :=
  ⟨topicsStart_accepted, topicsAccepted_gate, topicsAccepted_shape⟩

/-- Witness for C3 (amended) at a four-field record on a container resolving
`p.html`: the record is accepted as `/p.html` and the shape conjunct applies.
-/
theorem claim_C3_witness :
    (topicsAccepted c3lib "utf-8" "param"
        [("name", "Local"), ("value", "v:f::p.html")] = some "/p.html") ∧
    topicsStart c3lib "utf-8" [] "param"
        [("name", "Local"), ("value", "v:f::p.html")] =
      [] ++ ((topicsAccepted c3lib "utf-8" "param"
        [("name", "Local"), ("value", "v:f::p.html")]).map
          (c3lib.pyencode "utf-8")).toList ∧
    ∃ q : String, q.length ≠ 0 ∧ q.data.contains '#' = false ∧
      (("/p.html" : String) = q ∨ ("/p.html" : String) = "/" ++ q) ∧
      ((pySplitChar ':' (pyUnquote (lastAttr "value"
          [("name", "Local"), ("value", "v:f::p.html")]))).length = 1 ∧
         q = pyUnquote (lastAttr "value"
           [("name", "Local"), ("value", "v:f::p.html")]) ∨
       (pySplitChar ':' (pyUnquote (lastAttr "value"
          [("name", "Local"), ("value", "v:f::p.html")]))).length = 4 ∧
         q = (pySplitChar ':' (pyUnquote (lastAttr "value"
           [("name", "Local"), ("value", "v:f::p.html")]))).getLastD "" ∧
         ((pySplitChar ':' (pyUnquote (lastAttr "value"
           [("name", "Local"), ("value", "v:f::p.html")]))).get? 1).getD ""
           ≠ "" ∧
         peekfile c3lib (.str q) "utf-8" = true) :=
  ⟨by decide,
   claim_C3_amended.1 c3lib "utf-8" [] "param"
     [("name", "Local"), ("value", "v:f::p.html")],
   claim_C3_amended.2.2 c3lib "utf-8" "param"
     [("name", "Local"), ("value", "v:f::p.html")] "/p.html" (by decide)⟩

/-- The `(ok, nodename, up, infofile)` parse of an accepted header line, as
computed inside `scanLine`. -/
def headerParse (st : ScanSt) (line : List Nat) :
    Bool × PyVal × List Nat × List Nat :=
  procPairs (pySplit 44 (pyRstrip [10, 13] line))
    (.str (String.mk ((natToDecBytes st.index).map Char.ofNat)))
    (asciiBytes "Top") st.infofile

theorem dictSet_lookup_self (d : List (PyVal × List Nat)) (k : PyVal)
    (v : List Nat) : (dictSet d k v).lookup k = some v := by
  induction d with
  | nil => simp [dictSet, List.lookup]
  | cons hd t ih =>
    obtain ⟨k1, v1⟩ := hd
    unfold dictSet
    by_cases h : k1 = k
    · rw [if_pos h]
      simp [List.lookup]
    · rw [if_neg h]
      have hb : (k == k1) = false := beq_eq_false_iff_ne.mpr (Ne.symm h)
      simpa [List.lookup, hb] using ih

theorem dictSet_lookup_other (d : List (PyVal × List Nat)) (k k' : PyVal)
    (v : List Nat) (h : k' ≠ k) :
    (dictSet d k v).lookup k' = d.lookup k' := by
  have hb : (k' == k) = false := beq_eq_false_iff_ne.mpr h
  induction d with
  | nil => simp [dictSet, List.lookup, hb]
  | cons hd t ih =>
    obtain ⟨k1, v1⟩ := hd
    unfold dictSet
    by_cases h1 : k1 = k
    · rw [if_pos h1, h1]
      simp [List.lookup, hb]
    · rw [if_neg h1]
      by_cases h2 : k' = k1
      · rw [h2]
        simp [List.lookup]
      · have hb2 : (k' == k1) = false := beq_eq_false_iff_ne.mpr h2
        simpa [List.lookup, hb2] using ih

theorem scanLine_header (st : ScanSt) (line : List Nat)
    (hb : st.gotblankline = true)
    (hp : List.isPrefixOf (asciiBytes "File: ") (pyLstrip [32] line) = true)
    (hok : (headerParse st line).1 = true) :
    (scanLine st line).nodeDict =
      dictSet st.nodeDict (headerParse st line).2.1
        (headerParse st line).2.2.1 ∧
    (scanLine st line).logs = st.logs ++
      (if (st.nodeDict.lookup (headerParse st line).2.1).isSome
       then [.dupNode (headerParse st line).2.1] else []) := by
  unfold scanLine
  rw [if_pos ⟨hb, hp⟩]
  dsimp only
  have hok' : (procPairs (pySplit 44 (pyRstrip [10, 13] line))
      (PyVal.str (String.mk ((natToDecBytes st.index).map Char.ofNat)))
      (asciiBytes "Top") st.infofile).1 = true := hok
  rw [if_neg (not_not_intro hok')]
  exact ⟨rfl, rfl⟩

/-- Counterexample for C4: on a table with two `Node: A` records (first
`Up: Top`, then `Up: B`), the splitter logs the duplicate warning but the
parent mapping that title resolution uses for `A` is the *latest* record's
(`B`), not the earliest's: both `A` records resolve to `f / B / A`, where
the earliest-occurrence identity would give `f / A`. -/
theorem claim_C4_counterexample :
    ((splitinfo (asciiBytes "f")
      [asciiBytes "File: f, Node: Top, Up: Top", [],
       asciiBytes "File: f, Node: B, Up: Top", [],
       asciiBytes "File: f, Node: A, Up: Top", [],
       asciiBytes "File: f, Node: A, Up: B"]).toOption.map
        (fun r => (r.1.map Prod.fst, r.2))) =
      some ([asciiBytes "f", asciiBytes "f / B", asciiBytes "f / B / A",
             asciiBytes "f / B / A"],
            [InfoLog.dupNode (.bytes (asciiBytes "A"))]) ∧
    asciiBytes "f / B / A" ≠ asciiBytes "f / A" :=
  ⟨by decide, by decide⟩

/-- C4 (amended) — the resolver does log a duplicate-name warning exactly
when an accepted header's node name is already in the dictionary, but the
mapping then keeps the *latest* occurrence's parent: a dictionary update
overwrites the stored value in place (other keys untouched), so title
resolution of a duplicated name follows the parent from the last record
bearing it. -/
theorem claim_C4_amended :
    (∀ (d : List (PyVal × List Nat)) (k : PyVal) (v : List Nat),
      (dictSet d k v).lookup k = some v) ∧
    (∀ (d : List (PyVal × List Nat)) (k k' : PyVal) (v : List Nat),
      k' ≠ k → (dictSet d k v).lookup k' = d.lookup k') ∧
    (∀ (st : ScanSt) (line : List Nat),
      st.gotblankline = true →
      List.isPrefixOf (asciiBytes "File: ") (pyLstrip [32] line) = true →
      (headerParse st line).1 = true →
      (scanLine st line).nodeDict =
        dictSet st.nodeDict (headerParse st line).2.1
          (headerParse st line).2.2.1 ∧
      (scanLine st line).logs = st.logs ++
        (if (st.nodeDict.lookup (headerParse st line).2.1).isSome
         then [.dupNode (headerParse st line).2.1] else [])) :=
  ⟨dictSet_lookup_self, dictSet_lookup_other, scanLine_header⟩

/-- The concrete scan state of the C4 witness: `A` currently maps to `Top`.
-/
def c4st : ScanSt where
  gotblankline := true
  index := 1
  listout := []
  nodeDict := [(.bytes (asciiBytes "A"), asciiBytes "Top")]
  node := []
  infofile := asciiBytes "f"
  nodename := .bytes (asciiBytes "A")
  logs := []

/-- Witness for C4 at a concrete duplicate update and a concrete header
line re-binding `A` to parent `B`. -/
theorem claim_C4_witness :
    (dictSet [(PyVal.bytes [65], [66])] (.bytes [65]) [67]).lookup
      (.bytes [65]) = some [67] ∧
    (dictSet [(PyVal.bytes [65], [66])] (.bytes [65]) [67]).lookup
      (.bytes [68]) = [(PyVal.bytes [65], [66])].lookup (.bytes [68]) ∧
    (scanLine c4st (asciiBytes "File: f, Node: A, Up: B")).nodeDict =
      dictSet [(.bytes (asciiBytes "A"), asciiBytes "Top")]
        (.bytes (asciiBytes "A")) (asciiBytes "B") :=
  ⟨claim_C4_amended.1 [(PyVal.bytes [65], [66])] (.bytes [65]) [67],
   claim_C4_amended.2.1 [(PyVal.bytes [65], [66])] (.bytes [65]) (.bytes [68])
     [67] (by decide),
   by
    have h := (claim_C4_amended.2.2 c4st
      (asciiBytes "File: f, Node: A, Up: B") rfl (by decide) (by decide)).1
    rw [h]
    have hh : (headerParse c4st
        (asciiBytes "File: f, Node: A, Up: B")).2.1 =
        .bytes (asciiBytes "A") := by decide
    have hh2 : (headerParse c4st
        (asciiBytes "File: f, Node: A, Up: B")).2.2.1 = asciiBytes "B" := by
      decide
    rw [hh, hh2]
    rfl⟩

/-- A container holding one body-less document `hello` at path `p`. -/
def c5lib : ChmLib where
  loadOk := true
  topics := none
  home := []
  title := .str ""
  files := [([112], (1, asciiBytes "hello"))]
  parseEvents := fun _ => []
  pydecode := fun _ b => String.mk (b.map Char.ofNat)
  pyencode := fun _ st => asciiBytes st
  knownCodec := fun _ => true

/-- A catenate session over `c5lib`. -/
def c5state : ChmState where
  lib := c5lib
  contents := [[112]]
  currentindex := -1
  catenate := true
  charset := "utf-8"
  closed := false

/-- A container holding two documents with body regions `X` and `Y`. -/
def c5blib : ChmLib where
  loadOk := true
  topics := none
  home := []
  title := .str ""
  files := [([49], (1, asciiBytes "<body>X</body>")),
            ([50], (1, asciiBytes "<body>Y</body>"))]
  parseEvents := fun _ => []
  pydecode := fun _ b => String.mk (b.map Char.ofNat)
  pyencode := fun _ st => asciiBytes st
  knownCodec := fun _ => true

/-- A catenate session over `c5blib` with both documents listed in order. -/
def c5bodies : ChmState where
  lib := c5blib
  contents := [[49], [50]]
  currentindex := -1
  catenate := true
  charset := "utf-8"
  closed := false

/-- The body regions `dumpall` collects: one entry per successfully fetched
contents path whose document has a body-region match, in contents order. -/
def bodiesOf (s : ChmState) (l : List (List Nat)) : List (List Nat) :=
  l.filterMap (fun pth =>
    if (chmExtractone s (.bytes pth) true).1 = true then
      bodySearch (chmExtractone s (.bytes pth) true).2.1
    else none)

theorem dumpLoop_noheader (s : ChmState) (l : List (List Nat)) :
    ∀ (alltxt : List Nat) (first : Bool),
    (∀ pth ∈ l,
      headerSearch (chmExtractone s (.bytes pth) true).2.1 = none) →
    dumpLoop s l alltxt first = alltxt ++ (bodiesOf s l).flatten := by
  induction l with
  | nil =>
    intro alltxt first _
    simp [dumpLoop, bodiesOf]
  | cons pth rest ih =>
    intro alltxt first hnone
    have hrest : ∀ p ∈ rest,
        headerSearch (chmExtractone s (.bytes p) true).2.1 = none :=
      fun p hp => hnone p (List.mem_cons_of_mem pth hp)
    have hhd := hnone pth (List.mem_cons_self pth rest)
    unfold dumpLoop
    dsimp only
    by_cases hok : (chmExtractone s (.bytes pth) true).1 = true
    · rw [if_neg (not_not_intro hok)]
      rw [hhd]
      dsimp only
      rw [ite_self]
      cases hbody : bodySearch (chmExtractone s (.bytes pth) true).2.1 with
      | some body =>
        rw [ih (alltxt ++ body) first hrest]
        simp [bodiesOf, List.filterMap_cons, hok, hbody]
      | none =>
        rw [ih alltxt first hrest]
        simp [bodiesOf, List.filterMap_cons, hok, hbody]
    · rw [if_pos hok]
      rw [ih alltxt first hrest]
      simp [bodiesOf, List.filterMap_cons, hok]

theorem bodiesOf_nil_of_nobody (s : ChmState) (l : List (List Nat))
    (h : ∀ pth ∈ l, (chmExtractone s (.bytes pth) true).1 = true →
      bodySearch (chmExtractone s (.bytes pth) true).2.1 = none) :
    bodiesOf s l = [] := by
  induction l with
  | nil => simp [bodiesOf]
  | cons pth rest ih =>
    have hrest := fun p hp => h p (List.mem_cons_of_mem pth hp)
    have hhd := h pth (List.mem_cons_self pth rest)
    unfold bodiesOf
    rw [List.filterMap_cons]
    by_cases hok : (chmExtractone s (.bytes pth) true).1 = true
    · rw [if_pos hok, hhd hok]
      exact ih hrest
    · rw [if_neg hok]
      exact ih hrest

/-- The combined head `dumpall` synthesizes from the first head-bearing
fetched document: the document with its title region replaced by the
container title, followed by the opening `<body>` marker. -/
def combinedHeader (s : ChmState) (doc : List Nat) : List Nat :=
  titleSub (asciiBytes "<title>" ++ (match s.lib.title with
    | .str st => s.lib.pyencode s.charset st
    | .bytes b => b) ++ asciiBytes "</title>") 18 doc ++ asciiBytes "<body>"

/-- The synthesized head contributed by the first successfully fetched
document with a head region, `[]` when there is none. -/
def firstHeader (s : ChmState) : List (List Nat) → List Nat
  | [] => []
  | pth :: rest =>
    let r := chmExtractone s (.bytes pth) true
    if r.1 = true then
      match headerSearch r.2.1 with
      | some _ => combinedHeader s r.2.1
      | none => firstHeader s rest
    else firstHeader s rest

theorem dumpLoop_nil (s : ChmState) (alltxt : List Nat) (first : Bool) :
    dumpLoop s [] alltxt first = alltxt := rfl

theorem dumpLoop_step_skip (s : ChmState) (pth : List Nat)
    (rest : List (List Nat)) (alltxt : List Nat) (first : Bool)
    (hok : ¬(chmExtractone s (.bytes pth) true).1 = true) :
    dumpLoop s (pth :: rest) alltxt first = dumpLoop s rest alltxt first := by
  conv_lhs => unfold dumpLoop
  dsimp only
  rw [if_pos hok]

theorem dumpLoop_step_body (s : ChmState) (pth : List Nat)
    (rest : List (List Nat)) (alltxt : List Nat) (first : Bool)
    (X : List Nat)
    (hok : (chmExtractone s (.bytes pth) true).1 = true)
    (hh : headerSearch (chmExtractone s (.bytes pth) true).2.1 = none)
    (hb : bodySearch (chmExtractone s (.bytes pth) true).2.1 = some X) :
    dumpLoop s (pth :: rest) alltxt first =
      dumpLoop s rest (alltxt ++ X) first := by
  conv_lhs => unfold dumpLoop
  dsimp only
  rw [if_neg (not_not_intro hok)]
  rw [hh]
  dsimp only
  rw [ite_self]
  rw [hb]

theorem dumpLoop_step_nobody (s : ChmState) (pth : List Nat)
    (rest : List (List Nat)) (alltxt : List Nat) (first : Bool)
    (hok : (chmExtractone s (.bytes pth) true).1 = true)
    (hh : headerSearch (chmExtractone s (.bytes pth) true).2.1 = none)
    (hb : bodySearch (chmExtractone s (.bytes pth) true).2.1 = none) :
    dumpLoop s (pth :: rest) alltxt first = dumpLoop s rest alltxt first := by
  conv_lhs => unfold dumpLoop
  dsimp only
  rw [if_neg (not_not_intro hok)]
  rw [hh]
  dsimp only
  rw [ite_self]
  rw [hb]

theorem dumpLoop_step_body_false (s : ChmState) (pth : List Nat)
    (rest : List (List Nat)) (alltxt : List Nat) (X : List Nat)
    (hok : (chmExtractone s (.bytes pth) true).1 = true)
    (hb : bodySearch (chmExtractone s (.bytes pth) true).2.1 = some X) :
    dumpLoop s (pth :: rest) alltxt false =
      dumpLoop s rest (alltxt ++ X) false := by
  conv_lhs => unfold dumpLoop
  dsimp only
  rw [if_neg (not_not_intro hok)]
  rw [if_neg (by simp)]
  rw [hb]

theorem dumpLoop_step_nobody_false (s : ChmState) (pth : List Nat)
    (rest : List (List Nat)) (alltxt : List Nat)
    (hok : (chmExtractone s (.bytes pth) true).1 = true)
    (hb : bodySearch (chmExtractone s (.bytes pth) true).2.1 = none) :
    dumpLoop s (pth :: rest) alltxt false = dumpLoop s rest alltxt false := by
  conv_lhs => unfold dumpLoop
  dsimp only
  rw [if_neg (not_not_intro hok)]
  rw [if_neg (by simp)]
  rw [hb]

theorem dumpLoop_step_header_body (s : ChmState) (pth : List Nat)
    (rest : List (List Nat)) (alltxt : List Nat) (h1 X : List Nat)
    (hok : (chmExtractone s (.bytes pth) true).1 = true)
    (hh : headerSearch (chmExtractone s (.bytes pth) true).2.1 = some h1)
    (hb : bodySearch (chmExtractone s (.bytes pth) true).2.1 = some X) :
    dumpLoop s (pth :: rest) alltxt true =
      dumpLoop s rest
        (alltxt ++ combinedHeader s (chmExtractone s (.bytes pth) true).2.1
          ++ X) false := by
  conv_lhs => unfold dumpLoop
  dsimp only
  rw [if_neg (not_not_intro hok)]
  rw [if_pos rfl]
  rw [hh]
  dsimp only
  rw [hb]
  dsimp only
  congr 1
  simp [combinedHeader, List.append_assoc]

theorem dumpLoop_step_header_nobody (s : ChmState) (pth : List Nat)
    (rest : List (List Nat)) (alltxt : List Nat) (h1 : List Nat)
    (hok : (chmExtractone s (.bytes pth) true).1 = true)
    (hh : headerSearch (chmExtractone s (.bytes pth) true).2.1 = some h1)
    (hb : bodySearch (chmExtractone s (.bytes pth) true).2.1 = none) :
    dumpLoop s (pth :: rest) alltxt true =
      dumpLoop s rest
        (alltxt ++ combinedHeader s (chmExtractone s (.bytes pth) true).2.1)
        false := by
  conv_lhs => unfold dumpLoop
  dsimp only
  rw [if_neg (not_not_intro hok)]
  rw [if_pos rfl]
  rw [hh]
  dsimp only
  rw [hb]
  dsimp only
  congr 1
  simp [combinedHeader, List.append_assoc]

theorem dumpLoop_nobody_false (s : ChmState) : ∀ (l : List (List Nat))
    (alltxt : List Nat),
    (∀ pth ∈ l, (chmExtractone s (.bytes pth) true).1 = true →
      bodySearch (chmExtractone s (.bytes pth) true).2.1 = none) →
    dumpLoop s l alltxt false = alltxt := by
  intro l
  induction l with
  | nil => intro alltxt _; rfl
  | cons pth rest ih =>
    intro alltxt h
    have hrest := fun p hp => h p (List.mem_cons_of_mem pth hp)
    by_cases hok : (chmExtractone s (.bytes pth) true).1 = true
    · rw [dumpLoop_step_nobody_false s pth rest alltxt hok
        (h pth (List.mem_cons_self pth rest) hok)]
      exact ih alltxt hrest
    · rw [dumpLoop_step_skip s pth rest alltxt false hok]
      exact ih alltxt hrest

theorem dumpLoop_nobody_true (s : ChmState) : ∀ (l : List (List Nat))
    (alltxt : List Nat),
    (∀ pth ∈ l, (chmExtractone s (.bytes pth) true).1 = true →
      bodySearch (chmExtractone s (.bytes pth) true).2.1 = none) →
    dumpLoop s l alltxt true = alltxt ++ firstHeader s l := by
  intro l
  induction l with
  | nil =>
    intro alltxt _
    simp [dumpLoop, firstHeader]
  | cons pth rest ih =>
    intro alltxt h
    have hrest := fun p hp => h p (List.mem_cons_of_mem pth hp)
    unfold firstHeader
    dsimp only
    by_cases hok : (chmExtractone s (.bytes pth) true).1 = true
    · rw [if_pos hok]
      cases hh : headerSearch (chmExtractone s (.bytes pth) true).2.1 with
      | some h1 =>
        rw [dumpLoop_step_header_nobody s pth rest alltxt h1 hok hh
          (h pth (List.mem_cons_self pth rest) hok)]
        rw [dumpLoop_nobody_false s rest _ hrest]
      | none =>
        rw [dumpLoop_step_nobody s pth rest alltxt true hok hh
          (h pth (List.mem_cons_self pth rest) hok)]
        exact ih alltxt hrest
    · rw [if_neg hok, dumpLoop_step_skip s pth rest alltxt true hok]
      exact ih alltxt hrest

theorem dumpall_two (s : ChmState) (p1 p2 X Y : List Nat)
    (hc : s.contents = [p1, p2])
    (hok1 : (chmExtractone s (.bytes p1) true).1 = true)
    (hok2 : (chmExtractone s (.bytes p2) true).1 = true)
    (hX : bodySearch (chmExtractone s (.bytes p1) true).2.1 = some X)
    (hY : bodySearch (chmExtractone s (.bytes p2) true).2.1 = some Y) :
    ∃ a b, chmDumpall s =
      a ++ X ++ b ++ Y ++ asciiBytes "</body></html>" := by
  unfold chmDumpall
  rw [hc]
  cases hh1 : headerSearch (chmExtractone s (.bytes p1) true).2.1 with
  | some h1 =>
    rw [dumpLoop_step_header_body s p1 [p2] [] h1 X hok1 hh1 hX]
    rw [dumpLoop_step_body_false s p2 [] _ Y hok2 hY]
    rw [dumpLoop_nil]
    refine ⟨combinedHeader s (chmExtractone s (.bytes p1) true).2.1, [], ?_⟩
    simp [List.append_assoc]
  | none =>
    rw [dumpLoop_step_body s p1 [p2] [] true X hok1 hh1 hX]
    cases hh2 : headerSearch (chmExtractone s (.bytes p2) true).2.1 with
    | some h2 =>
      rw [dumpLoop_step_header_body s p2 [] ([] ++ X) h2 Y hok2 hh2 hY]
      rw [dumpLoop_nil]
      refine ⟨[], combinedHeader s (chmExtractone s (.bytes p2) true).2.1, ?_⟩
      simp [List.append_assoc]
    | none =>
      rw [dumpLoop_step_body s p2 [] ([] ++ X) true Y hok2 hh2 hY]
      rw [dumpLoop_nil]
      refine ⟨[], [], ?_⟩
      simp [List.append_assoc]

/-- Counterexample for C5: a session whose single document fetches fine but
contains no body region still assembles the closing markers — the result is
`</body></html>`, not empty. -/
theorem claim_C5_counterexample :
    chmDumpall c5state = asciiBytes "</body></html>" ∧
    asciiBytes "</body></html>" ≠ ([] : List Nat) :=
  ⟨by decide, by decide⟩

/-- C5 (amended) — `dumpall` fetches the contents in order and always
appends the closing `</body></html>` markers, so its result is never empty;
the body regions of successfully fetched documents are concatenated in
contents order — for two fetched documents with bodies `X` and `Y` the
output is `a ++ X ++ b ++ Y ++ closers` whatever the head regions are, and
with no head regions it is exactly the concatenated bodies plus the
closers.  When no fetched document yields a body region the result is the
synthesized combined head of the first head-bearing fetched document
(empty when there is none) followed by the closing markers; with neither
bodies nor heads it is exactly the closing markers. -/
theorem claim_C5_amended :
    (∀ s : ChmState,
      (∃ p, chmDumpall s = p ++ asciiBytes "</body></html>") ∧
      chmDumpall s ≠ []) ∧
    (∀ (s : ChmState) (l : List (List Nat)) (alltxt : List Nat)
        (first : Bool),
      (∀ pth ∈ l,
        headerSearch (chmExtractone s (.bytes pth) true).2.1 = none) →
      dumpLoop s l alltxt first = alltxt ++ (bodiesOf s l).flatten) ∧
    (∀ s : ChmState,
      (∀ pth ∈ s.contents,
        headerSearch (chmExtractone s (.bytes pth) true).2.1 = none) →
      chmDumpall s =
        (bodiesOf s s.contents).flatten ++ asciiBytes "</body></html>") ∧
    (∀ s : ChmState,
      (∀ pth ∈ s.contents, (chmExtractone s (.bytes pth) true).1 = true →
        bodySearch (chmExtractone s (.bytes pth) true).2.1 = none) →
      chmDumpall s =
        firstHeader s s.contents ++ asciiBytes "</body></html>") ∧
    (∀ s : ChmState,
      (∀ pth ∈ s.contents,
        headerSearch (chmExtractone s (.bytes pth) true).2.1 = none) →
      (∀ pth ∈ s.contents, (chmExtractone s (.bytes pth) true).1 = true →
        bodySearch (chmExtractone s (.bytes pth) true).2.1 = none) →
      chmDumpall s = asciiBytes "</body></html>") ∧
    (∀ (s : ChmState) (p1 p2 X Y : List Nat),
      s.contents = [p1, p2] →
      (chmExtractone s (.bytes p1) true).1 = true →
      (chmExtractone s (.bytes p2) true).1 = true →
      bodySearch (chmExtractone s (.bytes p1) true).2.1 = some X →
      bodySearch (chmExtractone s (.bytes p2) true).2.1 = some Y →
      ∃ a b, chmDumpall s =
        a ++ X ++ b ++ Y ++ asciiBytes "</body></html>") := by
  refine ⟨?_, fun s l => dumpLoop_noheader s l, ?_, ?_, ?_, dumpall_two⟩
  · intro s
    refine ⟨⟨dumpLoop s s.contents [] true, rfl⟩, ?_⟩
    intro hnil
    exact absurd (List.append_eq_nil.mp hnil).2 (by decide)
  · intro s hnone
    unfold chmDumpall
    rw [dumpLoop_noheader s s.contents [] true hnone]
    rfl
  · intro s hnobody
    unfold chmDumpall
    rw [dumpLoop_nobody_true s s.contents [] hnobody]
    rfl
  · intro s hnone hnobody
    unfold chmDumpall
    rw [dumpLoop_noheader s s.contents [] true hnone,
      bodiesOf_nil_of_nobody s s.contents hnobody]
    rfl

/-- Witness for C5 (amended) at a two-document session with bodies `X` and
`Y`: the dump is `XY</body></html>` — `X` before `Y`, and the two-document
order conjunct applies. -/
theorem claim_C5_witness :
    chmDumpall c5bodies =
      (bodiesOf c5bodies c5bodies.contents).flatten ++
        asciiBytes "</body></html>" ∧
    (bodiesOf c5bodies c5bodies.contents).flatten = asciiBytes "XY" ∧
    (∃ a b, chmDumpall c5bodies =
      a ++ asciiBytes "X" ++ b ++ asciiBytes "Y" ++
        asciiBytes "</body></html>") :=
  ⟨claim_C5_amended.2.2.1 c5bodies (by decide), by decide,
   claim_C5_amended.2.2.2.2.2 c5bodies [49] [50] (asciiBytes "X")
     (asciiBytes "Y") rfl (by decide) (by decide) (by decide) (by decide)⟩

theorem lookup_mem {α β : Type} [BEq α] [LawfulBEq α] {l : List (α × β)}
    {a : α} {b : β} (h : l.lookup a = some b) : (a, b) ∈ l := by
  induction l with
  | nil => simp [List.lookup] at h
  | cons hd t ih =>
    obtain ⟨k, v⟩ := hd
    by_cases hk : a = k
    · subst hk
      simp [List.lookup] at h
      simp [h]
    · have hb : (a == k) = false := beq_eq_false_iff_ne.mpr hk
      simp only [List.lookup, hb] at h
      exact List.mem_cons_of_mem _ (ih h)

theorem ite_some_norm {c1 : Prop} [Decidable c1] {c2 : Prop} [Decidable c2]
    (b1 b2 npath : List Nat)
    (h : (if c1 then some (if c2 then pnormpath b1 else pnormpath b2)
          else none) = some npath) : pnormpath npath = npath := by
  by_cases hc : c1
  · rw [if_pos hc] at h
    rcases Option.some_inj.mp h with rfl
    by_cases hc2 : c2
    · rw [if_pos hc2]
      exact pnormpath_idem _
    · rw [if_neg hc2]
      exact pnormpath_idem _
  · rw [if_neg hc] at h
    exact absurd h (by simp)

/-- Every path the walker proposes is already `normpath`-normalised. -/
theorem walkerCandidate_normed (lib : ChmLib) (cs : String) (dir : List Nat)
    (attrs : List (String × String)) (npath : List Nat)
    (h : walkerCandidate lib cs dir attrs = some npath) :
    pnormpath npath = npath := by
  unfold walkerCandidate at h
  dsimp only at h
  exact ite_some_norm _ _ _ h

theorem freshCount_append_le (lib : ChmLib) (cts : List (List Nat))
    (x : List Nat) : freshCount lib (cts ++ [x]) ≤ freshCount lib cts := by
  unfold freshCount
  refine List.Sublist.length_le (List.monotone_filter_right _ ?_)
  intro a ha
  simp only [decide_eq_true_eq] at ha ⊢
  exact ⟨ha.1, ha.2.1, fun hmem => ha.2.2 (by simp [hmem])⟩

theorem freshCount_append_lt (lib : ChmLib) (cts : List (List Nat))
    (npath : List Nat) (res : Nat) (doc : List Nat)
    (hl : lib.files.lookup npath = some (res, doc))
    (hres : res ≠ 0) (hdoc : doc ≠ []) (hmem : npath ∉ cts) :
    freshCount lib (cts ++ [npath]) < freshCount lib cts := by
  unfold freshCount
  have hsub : List.Sublist
      (lib.files.filter
        (fun e => e.2.1 ≠ 0 ∧ e.2.2 ≠ [] ∧ e.1 ∉ cts ++ [npath]))
      (lib.files.filter
        (fun e => e.2.1 ≠ 0 ∧ e.2.2 ≠ [] ∧ e.1 ∉ cts)) := by
    refine List.monotone_filter_right _ ?_
    intro a ha
    simp only [decide_eq_true_eq] at ha ⊢
    exact ⟨ha.1, ha.2.1, fun hm => ha.2.2 (by simp [hm])⟩
  have hmemf : (npath, (res, doc)) ∈ lib.files.filter
      (fun e => e.2.1 ≠ 0 ∧ e.2.2 ≠ [] ∧ e.1 ∉ cts) := by
    rw [List.mem_filter]
    exact ⟨lookup_mem hl, by simp [hres, hdoc, hmem]⟩
  have hnot : (npath, (res, doc)) ∉ lib.files.filter
      (fun e => e.2.1 ≠ 0 ∧ e.2.2 ≠ [] ∧ e.1 ∉ cts ++ [npath]) := by
    rw [List.mem_filter]
    rintro ⟨-, hpred⟩
    simp at hpred
  refine Nat.lt_of_le_of_ne hsub.length_le (fun he => hnot ?_)
  rw [hsub.eq_of_length he]
  exact hmemf

/-- A truthy fetch exposes a catalog entry with nonzero resolve status and
nonempty data. -/
theorem getfile_truthy_lookup (lib : ChmLib) (p : List Nat)
    (h : pyTruthy (getfile lib p) = true) :
    ∃ res doc, lib.files.lookup p = some (res, doc) ∧ res ≠ 0 ∧ doc ≠ [] := by
  unfold getfile at h
  cases hl : lib.files.lookup p with
  | none => rw [hl] at h; simp [pyTruthy] at h
  | some rd =>
    obtain ⟨res, doc⟩ := rd
    rw [hl] at h
    by_cases hres : res = 0
    · simp [hres, pyTruthy] at h
    · refine ⟨res, doc, rfl, hres, ?_⟩
      dsimp only at h
      rw [if_neg hres] at h
      simpa [pyTruthy] using h

theorem chmWalkGo_fresh (lib : ChmLib) (cs : String)
    (descend : List Nat → List (List Nat) →
      List (String × List (String × String)) → Option (List (List Nat)))
    (hdesc : ∀ d c e r, descend d c e = some r →
      freshCount lib r ≤ freshCount lib c) :
    ∀ (evs : List (String × List (String × String))) (dir : List Nat)
      (cts r : List (List Nat)),
      chmWalkGo lib cs descend dir cts evs = some r →
      freshCount lib r ≤ freshCount lib cts := by
  intro evs
  induction evs with
  | nil =>
    intro dir cts r h
    cases Option.some_inj.mp h
    exact le_refl _
  | cons ev rest ih =>
    intro dir cts r h
    obtain ⟨tag, attrs⟩ := ev
    unfold chmWalkGo at h
    dsimp only at h
    by_cases htag : tag ≠ "a"
    · rw [if_pos htag] at h
      exact ih dir cts r h
    · rw [if_neg htag] at h
      cases hcand : walkerCandidate lib cs dir attrs with
      | none =>
        rw [hcand] at h
        exact ih dir cts r h
      | some npath =>
        rw [hcand] at h
        dsimp only at h
        by_cases hmem : npath ∈ cts
        · rw [if_pos hmem] at h
          exact ih dir cts r h
        · rw [if_neg hmem] at h
          by_cases htr : pyTruthy (getfile lib npath) = true
          · rw [if_pos htr] at h
            have hle1 : freshCount lib (cts ++ [pnormpath npath]) ≤
                freshCount lib cts := freshCount_append_le lib cts _
            cases hfix : fixencoding lib (getfile lib npath) with
            | error e =>
              rw [hfix] at h
              dsimp only at h
              exact le_trans (ih dir _ r h) hle1
            | ok tc =>
              rw [hfix] at h
              dsimp only at h
              cases hdes : descend (pdirname (pnormpath npath))
                  (cts ++ [pnormpath npath]) (lib.parseEvents tc.1) with
              | none =>
                rw [hdes] at h
                exact absurd h (by simp)
              | some c2 =>
                rw [hdes] at h
                dsimp only at h
                exact le_trans (le_trans (ih dir c2 r h)
                  (hdesc _ _ _ _ hdes)) hle1
          · rw [if_neg htr] at h
            exact ih dir cts r h

theorem chmWalk_fresh (lib : ChmLib) (cs : String) :
    ∀ (fuel : Nat) (dir : List Nat) (cts : List (List Nat))
      (evs : List (String × List (String × String))) (r : List (List Nat)),
      chmWalk lib cs fuel dir cts evs = some r →
      freshCount lib r ≤ freshCount lib cts := by
  intro fuel
  induction fuel with
  | zero =>
    intro dir cts evs r h
    exact chmWalkGo_fresh lib cs _
      (fun _ _ _ _ h' => Option.noConfusion h') evs dir cts r h
  | succ f ih =>
    intro dir cts evs r h
    exact chmWalkGo_fresh lib cs _
      (fun d c e r' h' => ih d c e r' h') evs dir cts r h

theorem chmWalkGo_total (lib : ChmLib) (cs : String)
    (descend : List Nat → List (List Nat) →
      List (String × List (String × String)) → Option (List (List Nat)))
    (M : Nat)
    (hdfresh : ∀ d c e r, descend d c e = some r →
      freshCount lib r ≤ freshCount lib c)
    (hdtotal : ∀ d c e, freshCount lib c < M → (descend d c e).isSome = true) :
    ∀ (evs : List (String × List (String × String))) (dir : List Nat)
      (cts : List (List Nat)),
      freshCount lib cts ≤ M →
      (chmWalkGo lib cs descend dir cts evs).isSome = true := by
  intro evs
  induction evs with
  | nil =>
    intro dir cts _
    rfl
  | cons ev rest ih =>
    intro dir cts hcts
    obtain ⟨tag, attrs⟩ := ev
    unfold chmWalkGo
    dsimp only
    by_cases htag : tag ≠ "a"
    · rw [if_pos htag]
      exact ih dir cts hcts
    · rw [if_neg htag]
      cases hcand : walkerCandidate lib cs dir attrs with
      | none =>
        exact ih dir cts hcts
      | some npath =>
        dsimp only
        by_cases hmem : npath ∈ cts
        · rw [if_pos hmem]
          exact ih dir cts hcts
        · rw [if_neg hmem]
          by_cases htr : pyTruthy (getfile lib npath) = true
          · rw [if_pos htr]
            have hnorm : pnormpath npath = npath :=
              walkerCandidate_normed lib cs dir attrs npath hcand
            obtain ⟨res, doc, hl, hres, hdoc⟩ :=
              getfile_truthy_lookup lib npath htr
            have hlt : freshCount lib (cts ++ [pnormpath npath]) <
                freshCount lib cts := by
              rw [hnorm]
              exact freshCount_append_lt lib cts npath res doc hl hres hdoc
                hmem
            cases hfix : fixencoding lib (getfile lib npath) with
            | error e =>
              dsimp only
              exact ih dir _ (le_trans hlt.le hcts)
            | ok tc =>
              dsimp only
              have hdes : (descend (pdirname (pnormpath npath))
                  (cts ++ [pnormpath npath])
                  (lib.parseEvents tc.1)).isSome = true :=
                hdtotal _ _ _ (lt_of_lt_of_le hlt hcts)
              obtain ⟨c2, hc2⟩ := Option.isSome_iff_exists.mp hdes
              rw [hc2]
              dsimp only
              refine ih dir c2 ?_
              exact le_trans (hdfresh _ _ _ _ hc2)
                (le_trans hlt.le hcts)
          · rw [if_neg htr]
            exact ih dir cts hcts

theorem chmWalk_total (lib : ChmLib) (cs : String) :
    ∀ (fuel : Nat) (dir : List Nat) (cts : List (List Nat))
      (evs : List (String × List (String × String))),
      freshCount lib cts < fuel →
      (chmWalk lib cs fuel dir cts evs).isSome = true := by
  intro fuel
  induction fuel with
  | zero =>
    intro dir cts evs h
    exact absurd h (Nat.not_lt_zero _)
  | succ f ih =>
    intro dir cts evs h
    exact chmWalkGo_total lib cs _ f
      (fun d c e r' h' => chmWalk_fresh lib cs f d c e r' h')
      (fun d c e hc => ih d c e hc) evs dir cts (Nat.lt_succ_iff.mp h)

/-- The ContentIndex of a successful `openfile` outcome. -/
def openContents : Except Unit (Option ChmState) → Option (List (List Nat))
  | .ok (some s) => some s.contents
  | _ => none

/-- A container with the cyclic link graph `home → page1 → home`. -/
def cycLib : ChmLib where
  loadOk := true
  topics := none
  home := asciiBytes "/home.html"
  title := .str ""
  files := [(asciiBytes "/home.html", (1, asciiBytes "HOME")),
            (asciiBytes "/page1.html", (1, asciiBytes "PAGE1"))]
  parseEvents := fun t =>
    if t = "HOME" then [("a", [("href", "page1.html")])]
    else if t = "PAGE1" then [("a", [("href", "/home.html")])]
    else []
  pydecode := fun _ b => String.mk (b.map Char.ofNat)
  pyencode := fun _ st => asciiBytes st
  knownCodec := fun _ => true

/-- C6 — the link walk always terminates within a fuel budget of one more
than the number of fetchable not-yet-visited container files (the
visited-list check makes that count strictly decrease at every descent); on
the cyclic container whose home document links to `page1.html` and whose
`page1` document links back to `/home.html`, `openfile` terminates with
ContentIndex `[/home.html, /page1.html]`, home first. -/
theorem claim_C6 :
    (∀ (lib : ChmLib) (cs : String) (dir : List Nat) (cts : List (List Nat))
        (evs : List (String × List (String × String))),
      (chmWalk lib cs (freshCount lib cts + 1) dir cts evs).isSome = true) ∧
    cycLib.parseEvents (cycLib.pydecode "cp1252" (asciiBytes "HOME")) =
      [("a", [("href", "page1.html")])] ∧
    cycLib.parseEvents (cycLib.pydecode "cp1252" (asciiBytes "PAGE1")) =
      [("a", [("href", "/home.html")])] ∧
    openContents (chmOpenfile cycLib false) =
      some [asciiBytes "/home.html", asciiBytes "/page1.html"] :=
  ⟨fun lib cs dir cts evs =>
    chmWalk_total lib cs _ dir cts evs (Nat.lt_succ_self _),
   by decide, by decide, by decide⟩

/-- The ancestor chain of a node name: the names visited by the title loop
from the record's own name (inclusive) up to, excluding, the `Top` sentinel;
`none` when the loop would fail (a `str` name, a missing parent, or more
hops than the fuel allows). -/
def chainOf (dict : List (PyVal × List Nat)) :
    Nat → PyVal → Option (List (List Nat))
  | fuel, nodename =>
    if nodename = .bytes (asciiBytes "Top") then some []
    else
      match nodename with
      | .str _ => none
      | .bytes nb =>
        match dict.lookup (PyVal.bytes nb) with
        | some up =>
          match fuel with
          | 0 => none
          | f + 1 => (chainOf dict f (.bytes up)).map (fun as => nb :: as)
        | none => none

/-- The final title `resolveTitles` computes for a record whose name has an
ancestor chain, factored through `chainOf`. -/
def titleSpecOf (infofile : List Nat) (dict : List (PyVal × List Nat))
    (name : PyVal) : List Nat :=
  match chainOf dict 50 name with
  | some as =>
    let t := as.foldl (fun t n => n ++ asciiBytes " / " ++ t) []
    pyRstrip (asciiBytes " / ")
      (if t = [] then infofile else infofile ++ asciiBytes " / " ++ t)
  | none => []

theorem titleLoop_chain (dict : List (PyVal × List Nat)) :
    ∀ (fuel : Nat) (nodename : PyVal) (title : List Nat)
      (as : List (List Nat)),
      chainOf dict fuel nodename = some as →
      titleLoop dict fuel nodename title =
        .ok (false, as.foldl (fun t n => n ++ asciiBytes " / " ++ t) title,
          []) := by
  intro fuel
  induction fuel with
  | zero =>
    intro nodename title as h
    unfold chainOf at h
    unfold titleLoop
    by_cases htop : nodename = .bytes (asciiBytes "Top")
    · rw [if_pos htop] at h
      rw [if_pos htop]
      cases Option.some_inj.mp h
      rfl
    · rw [if_neg htop] at h
      rw [if_neg htop]
      cases nodename with
      | str st => exact absurd h (by simp)
      | bytes nb =>
        dsimp only at h ⊢
        cases hup : dict.lookup (PyVal.bytes nb) with
        | some up => rw [hup] at h; exact absurd h (by simp)
        | none => rw [hup] at h; exact absurd h (by simp)
  | succ f ih =>
    intro nodename title as h
    unfold chainOf at h
    unfold titleLoop
    by_cases htop : nodename = .bytes (asciiBytes "Top")
    · rw [if_pos htop] at h
      rw [if_pos htop]
      cases Option.some_inj.mp h
      rfl
    · rw [if_neg htop] at h
      rw [if_neg htop]
      cases nodename with
      | str st => exact absurd h (by simp)
      | bytes nb =>
        dsimp only at h ⊢
        cases hup : dict.lookup (PyVal.bytes nb) with
        | some up =>
          rw [hup] at h
          dsimp only at h ⊢
          obtain ⟨as', has', rfl⟩ := Option.map_eq_some'.mp h
          rw [ih (.bytes up) (nb ++ asciiBytes " / " ++ title) as' has']
          rfl
        | none => rw [hup] at h; exact absurd h (by simp)

theorem resolveTitles_chains (infofile : List Nat)
    (dict : List (PyVal × List Nat)) :
    ∀ records : List (PyVal × List Nat),
    (∀ rec ∈ records, (chainOf dict 50 rec.1).isSome = true) →
    resolveTitles infofile dict records =
      .ok (records.map (fun rec => (titleSpecOf infofile dict rec.1, rec.2)),
        []) := by
  intro records
  induction records with
  | nil => intro _; rfl
  | cons rec rest ih =>
    intro h
    obtain ⟨nodename, node⟩ := rec
    have hhd := h _ (List.mem_cons_self _ _)
    dsimp only at hhd
    obtain ⟨as, has⟩ := Option.isSome_iff_exists.mp hhd
    unfold resolveTitles
    rw [titleLoop_chain dict 50 nodename [] as has]
    rw [ih (fun r hr => h r (List.mem_cons_of_mem _ hr))]
    simp only [List.map_cons]
    unfold titleSpecOf
    rw [has]
    rfl

theorem sep_shift (sep : List Nat) : ∀ l : List (List Nat),
    sep ++ (l.map (fun n => n ++ sep)).flatten =
      (l.map (fun n => sep ++ n)).flatten ++ sep := by
  intro l
  induction l with
  | nil => simp
  | cons n rest ih =>
    simp only [List.map_cons, List.flatten_cons]
    calc sep ++ ((n ++ sep) ++ (rest.map (fun n => n ++ sep)).flatten)
        = (sep ++ n) ++ (sep ++ (rest.map (fun n => n ++ sep)).flatten) := by
          simp [List.append_assoc]
      _ = (sep ++ n) ++ ((rest.map (fun n => sep ++ n)).flatten ++ sep) := by
          rw [ih]
      _ = ((sep ++ n) ++ (rest.map (fun n => sep ++ n)).flatten) ++ sep := by
          simp [List.append_assoc]

theorem foldl_chain (sep : List Nat) : ∀ (as : List (List Nat))
    (t : List Nat),
    as.foldl (fun t n => n ++ sep ++ t) t =
      (as.reverse.map (fun n => n ++ sep)).flatten ++ t := by
  intro as
  induction as with
  | nil => intro t; simp
  | cons n rest ih =>
    intro t
    simp only [List.foldl_cons, List.reverse_cons, List.map_append,
      List.flatten_append]
    rw [ih]
    simp [List.append_assoc]

theorem pyRstrip_append (cs xs ys : List Nat)
    (hys : ∀ b ∈ ys, cs.contains b = true)
    (hxs : ∀ b, xs.getLast? = some b → cs.contains b = false) :
    pyRstrip cs (xs ++ ys) = xs := by
  unfold pyRstrip
  rw [List.reverse_append, List.dropWhile_append]
  have h1 : ys.reverse.dropWhile (fun b => cs.contains b) = [] := by
    rw [List.dropWhile_eq_nil_iff]
    exact fun x hx => hys x (List.mem_reverse.mp hx)
  rw [h1]
  simp only [List.isEmpty_nil, if_true]
  cases hrev : xs.reverse with
  | nil =>
    have : xs = [] := by simpa using congrArg List.reverse hrev
    simp [this]
  | cons b rest =>
    have hb : xs.getLast? = some b := by
      rw [← List.head?_reverse, hrev]
      rfl
    rw [List.dropWhile_cons,
      if_neg (by simp only [hxs b hb]; exact Bool.false_ne_true)]
    rw [← hrev, List.reverse_reverse]

theorem titleSpecOf_claim (infofile : List Nat)
    (dict : List (PyVal × List Nat)) (name : PyVal)
    (n0 : List Nat) (rest : List (List Nat))
    (h : chainOf dict 50 name = some (n0 :: rest))
    (hn0 : n0 ≠ [])
    (hlast : ∀ b, n0.getLast? = some b →
      (asciiBytes " / ").contains b = false) :
    titleSpecOf infofile dict name =
      infofile ++
        (((n0 :: rest).reverse.map (fun n => asciiBytes " / " ++ n)).flatten)
    := by
  unfold titleSpecOf
  rw [h]
  dsimp only
  rw [foldl_chain]
  simp only [List.append_nil]
  have hne : (((n0 :: rest).reverse.map
      (fun n => n ++ asciiBytes " / ")).flatten) ≠ [] := by
    simp only [List.reverse_cons, List.map_append, List.flatten_append,
      List.map_cons, List.map_nil, List.flatten_cons, List.flatten_nil,
      List.append_nil]
    intro hcontra
    rcases List.append_eq_nil.mp hcontra with ⟨-, h2⟩
    rcases List.append_eq_nil.mp h2 with ⟨-, h3⟩
    exact absurd h3 (by decide)
  rw [if_neg hne]
  rw [show infofile ++ asciiBytes " / " ++
        (((n0 :: rest).reverse.map (fun n => n ++ asciiBytes " / ")).flatten)
      = infofile ++ (asciiBytes " / " ++
        (((n0 :: rest).reverse.map (fun n => n ++ asciiBytes " / ")).flatten))
    from by simp [List.append_assoc]]
  rw [sep_shift]
  rw [← List.append_assoc]
  refine pyRstrip_append _ _ _ (by decide) ?_
  intro b hb
  apply hlast
  rw [← hb]
  simp only [List.reverse_cons, List.map_append, List.flatten_append,
    List.map_cons, List.map_nil, List.flatten_cons, List.flatten_nil,
    List.append_nil]
  have h2 : asciiBytes " / " ++ n0 ≠ [] := by
    intro hc
    exact absurd (List.append_eq_nil.mp hc).1 (by decide)
  have h3 : (List.map (fun n => asciiBytes " / " ++ n) rest.reverse).flatten
      ++ (asciiBytes " / " ++ n0) ≠ [] :=
    fun hc => h2 (List.append_eq_nil.mp hc).2
  rw [List.getLast?_append_of_ne_nil _ h3,
    List.getLast?_append_of_ne_nil _ h2,
    List.getLast?_append_of_ne_nil _ hn0]

/-- The three-record table of the C7 fixture: `Top ↦ Top`, `N1 ↦ Top`,
`N2 ↦ N1`. -/
def c7dict : List (PyVal × List Nat) :=
  [(.bytes (asciiBytes "Top"), asciiBytes "Top"),
   (.bytes (asciiBytes "N1"), asciiBytes "Top"),
   (.bytes (asciiBytes "N2"), asciiBytes "N1")]

/-- A table whose single non-root record is named `N/` — ending in a slash.
-/
def c7slash : List (PyVal × List Nat) :=
  [(.bytes (asciiBytes "N/"), asciiBytes "Top")]

/-- A table with an `A`-prefixed chain of length 56 reaching `Top`. -/
def c7long : List (PyVal × List Nat) :=
  (List.range 60).map (fun k =>
    (PyVal.bytes [65, k], if k = 0 then asciiBytes "Top" else [65, k - 1]))

/-- Counterexample for C7: the final `rstrip(b" / ")` strips *characters*
(spaces and slashes), so a record named `N/` resolves to `f / N`, not the
claimed chain-join `f / N/`; and a record whose parent chain does reach
`Top` but needs more than 50 hops is dropped entirely (with a bad-tree
diagnostic) instead of being resolved. -/
theorem claim_C7_counterexample :
    titleSpecOf (asciiBytes "f") c7slash (.bytes (asciiBytes "N/")) =
      asciiBytes "f / N" ∧
    asciiBytes "f" ++
      ((((chainOf c7slash 50 (.bytes (asciiBytes "N/"))).getD
        []).reverse.map (fun n => asciiBytes " / " ++ n)).flatten) =
      asciiBytes "f / N/" ∧
    asciiBytes "f / N" ≠ asciiBytes "f / N/" ∧
    (chainOf c7long 60 (.bytes [65, 55])).isSome = true ∧
    (resolveTitles (asciiBytes "f") c7long
      [(.bytes [65, 55], [110])]).toOption = some ([], [.badTree]) :=
  ⟨by decide, by decide, by decide, by decide, by decide⟩

/-- C7 (amended) — when every record's name has an ancestor chain reaching
`Top` within the 50-hop budget, the resolver emits one record per input
record, titled by `titleSpecOf`; and when a record's own name is non-empty
and does not end in a space or slash byte, that title is exactly the
container's display name followed by the ancestor chain joined with
`' / '`, most distant ancestor first (a record whose only parent is the
root has an empty chain and yields just the display name, `rstrip`-ped). -/
theorem claim_C7_amended :
    (∀ (dict : List (PyVal × List Nat)) (fuel : Nat) (nodename : PyVal)
        (title : List Nat) (as : List (List Nat)),
      chainOf dict fuel nodename = some as →
      titleLoop dict fuel nodename title =
        .ok (false, as.foldl (fun t n => n ++ asciiBytes " / " ++ t) title,
          [])) ∧
    (∀ (infofile : List Nat) (dict : List (PyVal × List Nat))
        (records : List (PyVal × List Nat)),
      (∀ rec ∈ records, (chainOf dict 50 rec.1).isSome = true) →
      resolveTitles infofile dict records =
        .ok (records.map
          (fun rec => (titleSpecOf infofile dict rec.1, rec.2)), [])) ∧
    (∀ (infofile : List Nat) (dict : List (PyVal × List Nat)) (name : PyVal)
        (n0 : List Nat) (rest : List (List Nat)),
      chainOf dict 50 name = some (n0 :: rest) →
      n0 ≠ [] →
      (∀ b, n0.getLast? = some b →
        (asciiBytes " / ").contains b = false) →
      titleSpecOf infofile dict name =
        infofile ++
          (((n0 :: rest).reverse.map
            (fun n => asciiBytes " / " ++ n)).flatten)) ∧
    (∀ (infofile : List Nat) (dict : List (PyVal × List Nat)) (name : PyVal),
      chainOf dict 50 name = some [] →
      titleSpecOf infofile dict name = pyRstrip (asciiBytes " / ") infofile)
    := by
  refine ⟨titleLoop_chain, resolveTitles_chains, ?_, ?_⟩
  · intro infofile dict name n0 rest h hn0 hlast
    exact titleSpecOf_claim infofile dict name n0 rest h hn0 hlast
  · intro infofile dict name h
    unfold titleSpecOf
    rw [h]
    rfl

/-- Witness for C7 (amended) at the `{Top, N1, N2}` table: `N2` resolves to
`f / N1 / N2`. -/
theorem claim_C7_witness :
    resolveTitles (asciiBytes "f") c7dict
        [(.bytes (asciiBytes "N2"), [110])] =
      .ok ([(.bytes (asciiBytes "N2"), [110])].map
        (fun rec => (titleSpecOf (asciiBytes "f") c7dict rec.1, rec.2)),
        []) ∧
    titleSpecOf (asciiBytes "f") c7dict (.bytes (asciiBytes "N2")) =
      asciiBytes "f / N1 / N2" :=
  ⟨claim_C7_amended.2.1 (asciiBytes "f") c7dict
    [(.bytes (asciiBytes "N2"), [110])] (by decide), by decide⟩

/-- A container whose topics object declares `charset=foo`, a token the
codec registry does not resolve (only `cp1252` is registered). -/
def c10lib : ChmLib where
  loadOk := true
  topics := some
    (asciiBytes "<meta http-equiv=\x22content-type\x22 charset=foo \x22>")
  home := []
  title := .bytes []
  files := []
  parseEvents := fun _ => []
  pydecode := fun _ b => String.mk (b.map Char.ofNat)
  pyencode := fun _ st => asciiBytes st
  knownCodec := fun cs => cs = "cp1252"

/-- Counterexample for C10: `fixencoding` is *not* total on bytes — a topics
object declaring `charset=foo` makes `bytes.decode` raise `LookupError`
(the token is not a registered codec), and the topics branch of `openfile`
lets that exception escape. -/
theorem claim_C10_counterexample :
    declaredCharset
      (asciiBytes "<meta http-equiv=\x22content-type\x22 charset=foo \x22>") =
      "foo" ∧
    c10lib.knownCodec "foo" = false ∧
    (fixencoding c10lib (.bytes
      (asciiBytes
        "<meta http-equiv=\x22content-type\x22 charset=foo \x22>"))).isOk =
      false ∧
    chmOpenfile c10lib false = .error () :=
  ⟨by decide, by decide, by decide, rfl⟩

/-- Witness for C10 (amended): at a concrete container with a total codec
registry the `str` call raises, the bytes success condition is the codec
lookup, and `openfile` returns without an exception. -/
theorem claim_C10_witness :
    fixencoding encOnlyLib (.str "oops") = .error () ∧
    ((fixencoding encOnlyLib (.bytes [1, 2])).isOk = true ↔
      encOnlyLib.knownCodec (declaredCharset [1, 2]) = true) ∧
    (∀ cs, encOnlyLib.knownCodec cs = true) ∧
    chmOpenfile encOnlyLib false ≠ .error () :=
  ⟨claim_C10_amended.1 encOnlyLib "oops",
   claim_C10_amended.2.1 encOnlyLib [1, 2],
   fun _ => rfl,
   claim_C10_amended.2.2.2 encOnlyLib false (fun _ => rfl)⟩

